import Mathlib

/-
Verification of the UI-tree reconciliation core of car_mirror_tool
(src/car2.py): the indentation-based View Hierarchy geometry parser
(`ViewHierarchyParser`), the attribute-tree matcher and merger
(`HybridUIParser`), the point query (`UIParser.find_element_at_point`)
and the hybrid-mode dispatch (`CarScreenMirrorTool._parseHybridMode`).

Python strings are modelled as `List Char` (`Str`); Python dict nodes
are modelled as a `NodeData` structure plus a `children` list
(`UiNode`); dict keys that may be absent are modelled as `Option`
fields.  Scores are exact rationals (the Python floats approximate the
same arithmetic).  Regular-expression operations of the source are
modelled by equivalent maximal-munch scanners: each regex used in the
source (`(\d+),(\d+)-(\d+),(\d+)`, the class prefix, the resource-id
pattern) has no backtracking ambiguity, so a left-to-right scan with
greedy runs computes exactly the same match.
-/

/-- Python strings, modelled as lists of characters. -/
abbrev Str := List Char

/-- The whitespace characters stripped by Python str.strip / str.lstrip
(ASCII whitespace; the dump text is ASCII). -/
def pyIsSpace (c : Char) : Bool :=
  c == ' ' || c == '\t' || c == '\n' || c == '\r' ||
  c == Char.ofNat 11 || c == Char.ofNat 12

/-- Python str.strip: drop leading and trailing whitespace. -/
def stripStr (l : Str) : Str :=
  ((l.dropWhile pyIsSpace).reverse.dropWhile pyIsSpace).reverse

/-- Python substring membership `pat in s`. -/
def subIn (pat s : Str) : Bool :=
  (List.range (s.length + 1)).any (fun i => pat.isPrefixOf (s.drop i))

/-- Positions of `s` at which `sep` occurs. -/
def occPositions (s sep : Str) : List Nat :=
  (List.range (s.length + 1)).filter (fun i => sep.isPrefixOf (s.drop i))

/-- The part of `s` after the last occurrence of `sep`; `s` itself when
`sep` does not occur.  This is Python `s.split(sep)[-1]` for the
separators used by the source (":id/", "/", "."), none of which can
overlap itself. -/
def afterLast (s sep : Str) : Str :=
  match (occPositions s sep).getLast? with
  | some i => s.drop (i + sep.length)
  | none => s

/-- Python `text.split('\n')` (keeps empty pieces). -/
def splitNL : Str → List Str
  | [] => [[]]
  | ch :: rest =>
    match splitNL rest with
    | [] => [[]]
    | l :: ls => if ch == '\n' then [] :: l :: ls else (ch :: l) :: ls

/-- Python `len(line) - len(line.lstrip())`: the count of leading
whitespace characters. -/
def countIndent (l : Str) : Nat :=
  (l.takeWhile pyIsSpace).length

/-- Python `str(b).lower()` on a bool. -/
def pyBool (b : Bool) : Str :=
  if b then "true".data else "false".data

/-- A parsed bounds quadruple x1,y1-x2,y2 (left, top, right, bottom). -/
structure Bnds where
  left : Int
  top : Int
  right : Int
  bottom : Int
  deriving Repr, DecidableEq

/-- The fields of one UI node dict, shared by the UIAutomator parse
(`UIParser._parse_node`) and the View Hierarchy parse
(`ViewHierarchyParser._create_ui_node`).  Keys that one producer sets
and the other does not are `Option`; `bounds?` is `some` exactly when
the dict has the derived geometry keys x1, y1, x2, y2 (from which the
source also stores width, height, center). -/
structure NodeData where
  cls : Str
  resourceId : Str
  text : Str
  contentDesc : Str
  clickable : Str
  enabled : Str
  focusable : Str
  scrollable : Str
  longClickable : Option Str
  checkable : Option Str
  checked : Option Str
  selected : Option Str
  focused : Option Str
  package : Str
  index : Str
  bounds? : Option Bnds
  textSource : Option Str
  infoSupplemented : Bool
  textMatched : Option Bool
  deriving Repr, DecidableEq

/-- Geometry width `x2 - x1` of a node with parsed bounds
(0 when the node has no geometry; only used where bounds exist). -/
def NodeData.width (d : NodeData) : Int :=
  match d.bounds? with
  | some b => b.right - b.left
  | none => 0

/-- Geometry height `y2 - y1`. -/
def NodeData.height (d : NodeData) : Int :=
  match d.bounds? with
  | some b => b.bottom - b.top
  | none => 0

/-- A UI node: its dict fields and its ordered children. -/
inductive UiNode where
  | node (d : NodeData) (children : List UiNode)
  deriving Repr

/-- The dict fields of a node. -/
def UiNode.data : UiNode → NodeData
  | .node d _ => d

/-- The ordered children of a node. -/
def UiNode.children : UiNode → List UiNode
  | .node _ cs => cs

mutual
/-- Number of nodes of a tree. -/
def treeSize : UiNode → Nat
  | .node _ cs => 1 + treeSizeList cs
/-- Number of nodes of a forest. -/
def treeSizeList : List UiNode → Nat
  | [] => 0
  | t :: ts => treeSize t + treeSizeList ts
end

mutual
/-- All nodes of a tree in pre-order (the traversal order of every
recursive walk in the source). -/
def preorder : UiNode → List UiNode
  | .node d cs => .node d cs :: preorderList cs
/-- All nodes of a forest in pre-order. -/
def preorderList : List UiNode → List UiNode
  | [] => []
  | t :: ts => preorder t ++ preorderList ts
end

/-! ## UIParser.find_element_at_point (the point query) -/

/-- Whether a node's dict has the geometry keys x1..y2 and its bounds
contain the point (the containment test of
`UIParser._find_elements_at_point`, inclusive on all four edges). -/
def containsPoint (d : NodeData) (x y : Int) : Bool :=
  match d.bounds? with
  | some b => decide (b.left ≤ x ∧ x ≤ b.right ∧ b.top ≤ y ∧ y ≤ b.bottom)
  | none => false

mutual
/-- The elements collected by `UIParser._find_elements_at_point`: every
node with parsed geometry whose bounds contain (x, y), in pre-order. -/
def find_elements_at_point (t : UiNode) (x y : Int) : List UiNode :=
  match t with
  | .node d cs =>
    (if containsPoint d x y then [UiNode.node d cs] else []) ++
    find_elements_list cs x y
/-- The recursion of `_find_elements_at_point` over a children list. -/
def find_elements_list (ts : List UiNode) (x y : Int) : List UiNode :=
  match ts with
  | [] => []
  | t :: ts => find_elements_at_point t x y ++ find_elements_list ts x y
end

/-- The key of the Python `min` call: width × height. -/
def area (t : UiNode) : Int :=
  t.data.width * t.data.height

/-- Python `min(elements, key=area)`: the first element of minimal
area (`min` keeps the earliest minimum). -/
def minByArea : List UiNode → Option UiNode
  | [] => none
  | t :: ts => some (ts.foldl (fun b u => if area u < area b then u else b) t)

/-- The point query `UIParser.find_element_at_point`: collect every
containing node, return the one of smallest area; None when no node
contains the point. -/
def find_element_at_point (t : UiNode) (x y : Int) : Option UiNode :=
  minByArea (find_elements_at_point t x y)

/-! ## HybridUIParser: id suffixes, content anchor, index -/

/-- The trailing segment of a resource id
(`HybridUIParser._extract_id_suffix`): None for an empty id, the part
after the last ":id/" when present, else after the last "/", else the
whole id. -/
def extract_id_suffix (fullId : Str) : Option Str :=
  if fullId.isEmpty then none
  else if subIn ":id/".data fullId then some (afterLast fullId ":id/".data)
  else if subIn "/".data fullId then some (afterLast fullId "/".data)
  else some fullId

/-- The content-anchor test of `HybridUIParser._find_content_node`:
a non-empty resource id that contains "content" or ends in
":id/content". -/
def isContentNode (d : NodeData) : Bool :=
  !d.resourceId.isEmpty &&
  (subIn "content".data d.resourceId || ":id/content".data.isSuffixOf d.resourceId)

mutual
/-- The first node in pre-order whose id marks it as the content anchor
(`HybridUIParser._find_content_node`). -/
def find_content_node (t : UiNode) : Option UiNode :=
  match t with
  | .node d cs =>
    if isContentNode d then some (UiNode.node d cs) else find_content_list cs
/-- The recursion of `_find_content_node` over a children list. -/
def find_content_list (ts : List UiNode) : Option UiNode :=
  match ts with
  | [] => none
  | t :: ts =>
    match find_content_node t with
    | some r => some r
    | none => find_content_list ts
end

/-- An attribute-tree node annotated with a synthetic identifier `nid`
standing for Python object identity: annotation replaces the in-place
`_used` flag by membership of `nid` in an explicit used set. -/
inductive ANode where
  | node (nid : Nat) (d : NodeData) (children : List ANode)
  deriving Repr

/-- The identifier of an annotated node. -/
def ANode.nid : ANode → Nat
  | .node n _ _ => n

/-- The dict fields of an annotated node. -/
def ANode.data : ANode → NodeData
  | .node _ d _ => d

/-- The children of an annotated node. -/
def ANode.children : ANode → List ANode
  | .node _ _ cs => cs

mutual
/-- Annotate a tree with distinct pre-order identifiers starting at `n`
(returns the next unused identifier). -/
def annotate (t : UiNode) (n : Nat) : ANode × Nat :=
  match t with
  | .node d cs =>
    let (cs', n') := annotateList cs (n + 1)
    (.node n d cs', n')
/-- Annotate a forest with consecutive pre-order identifiers. -/
def annotateList (ts : List UiNode) (n : Nat) : List ANode × Nat :=
  match ts with
  | [] => ([], n)
  | t :: ts =>
    let (t', n1) := annotate t n
    let (ts', n2) := annotateList ts n1
    (t' :: ts', n2)
end

mutual
/-- All annotated nodes of a tree in pre-order. -/
def preorderA : ANode → List ANode
  | .node n d cs => .node n d cs :: preorderListA cs
/-- All annotated nodes of a forest in pre-order. -/
def preorderListA : List ANode → List ANode
  | [] => []
  | t :: ts => preorderA t ++ preorderListA ts
end

mutual
/-- The content-anchor search on the annotated attribute tree. -/
def find_content_nodeA (t : ANode) : Option ANode :=
  match t with
  | .node n d cs =>
    if isContentNode d then some (ANode.node n d cs) else find_content_listA cs
/-- The recursion of the anchor search over a children list. -/
def find_content_listA (ts : List ANode) : Option ANode :=
  match ts with
  | [] => none
  | t :: ts =>
    match find_content_nodeA t with
    | some r => some r
    | none => find_content_listA ts
end

/-- The id-suffix index `ui_node_map`: an insertion-ordered dict from
suffix to the list of nodes carrying it. -/
abbrev Index := List (Str × List ANode)

/-- Append a node under a key, preserving dict insertion order
(`self.ui_node_map[id_suffix].append(ui_node)`). -/
def indexInsert (ix : Index) (k : Str) (n : ANode) : Index :=
  match ix with
  | [] => [(k, [n])]
  | (k', l) :: rest =>
    if k' == k then (k', l ++ [n]) :: rest else (k', l) :: indexInsert rest k n

/-- Dict lookup: `some` exactly when the key was ever inserted
(Python `id_suffix in self.ui_node_map`). -/
def indexLookup (ix : Index) (k : Str) : Option (List ANode) :=
  match ix with
  | [] => none
  | (k', l) :: rest => if k' == k then some l else indexLookup rest k

mutual
/-- Build the id-suffix index over the (anchored) attribute tree in
pre-order (`HybridUIParser._build_ui_index`): a node is indexed when
its resource id and extracted suffix are both non-empty. -/
def build_ui_index (t : ANode) (ix : Index) : Index :=
  match t with
  | .node nid d cs =>
    let ix1 :=
      if !d.resourceId.isEmpty then
        match extract_id_suffix d.resourceId with
        | some suf =>
          if !suf.isEmpty then indexInsert ix suf (.node nid d cs) else ix
        | none => ix
      else ix
    build_ui_index_list cs ix1
/-- The recursion of `_build_ui_index` over a children list. -/
def build_ui_index_list (ts : List ANode) (ix : Index) : Index :=
  match ts with
  | [] => ix
  | t :: ts => build_ui_index_list ts (build_ui_index t ix)
end

/-! ## HybridUIParser: scoring and matching -/

/-- Python `class.split('.')[-1]`: the last dot-separated segment. -/
def lastSegment (s : Str) : Str :=
  afterLast s ".".data

/-- The class-family table of `HybridUIParser._similar_class_names`
(the dict values; the group names play no role in the test). -/
def type_groups : List (List Str) :=
  [ ["TextView".data, "EditText".data, "TextInputEditText".data,
     "AppCompatTextView".data],
    ["Button".data, "ImageButton".data, "AppCompatButton".data,
     "MaterialButton".data],
    ["ImageView".data, "AppCompatImageView".data, "ImageButton".data],
    ["LinearLayout".data, "RelativeLayout".data, "FrameLayout".data,
     "ConstraintLayout".data],
    ["RecyclerView".data, "ListView".data, "ScrollView".data,
     "ViewPager".data] ]

/-- Whether two (last-segment) class names are similar
(`HybridUIParser._similar_class_names`): equal, or some family has a
member occurring as a substring of each. -/
def similar_class_names (c1 c2 : Str) : Bool :=
  if c1 == c2 then true
  else type_groups.any
    (fun g => g.any (fun m => subIn m c1) && g.any (fun m => subIn m c2))

/-- The number of agreeing flags among clickable, focusable, enabled,
scrollable (the attribute loop of `_calculate_match_score`; both dicts
always carry these four keys as strings). -/
def countAgree (vh ui : NodeData) : Nat :=
  (if vh.clickable == ui.clickable then 1 else 0) +
  (if vh.focusable == ui.focusable then 1 else 0) +
  (if vh.enabled == ui.enabled then 1 else 0) +
  (if vh.scrollable == ui.scrollable then 1 else 0)

/-- The additive match score of `HybridUIParser._calculate_match_score`.
The attribute loop always visits exactly four flags, so its guard
`attr_count > 0` always holds and the term is 0.15 × (agree / 4). -/
def calculate_match_score (vh : UiNode) (ui : ANode) (hasSameId : Bool) : ℚ :=
  let score0 : ℚ := if hasSameId then 0.4 else 0
  let vhClass := lastSegment vh.data.cls
  let uiClass := lastSegment ui.data.cls
  let score1 : ℚ :=
    if vhClass == uiClass then score0 + 0.3
    else if similar_class_names vhClass uiClass then score0 + 0.2
    else score0
  let vc := vh.children.length
  let uc := ui.children.length
  let score2 : ℚ :=
    if vc = uc then score1 + 0.15
    else if 0 < vc ∧ 0 < uc then
      score1 + 0.15 * ((min vc uc : ℚ) / (max vc uc : ℚ))
    else score1
  score2 + 0.15 * ((countAgree vh.data ui.data : ℚ) / 4)

/-- The reservation test `HybridUIParser._is_node_available`: the node's
`_used` flag is unset, i.e. its identifier is not in the used set. -/
def is_node_available (used : List Nat) (n : ANode) : Bool :=
  !used.contains n.nid

/-- The reservation `HybridUIParser._mark_node_used`: add the node's
identifier to the used set. -/
def mark_node_used (n : ANode) (used : List Nat) : List Nat :=
  n.nid :: used

mutual
/-- Candidate set 2 (`HybridUIParser._search_in_subtree`): walk the
context subtree down to `maxDepth` (2 in every call), adding each
available node whose non-id score is positive, in pre-order; the walk
descends below unavailable nodes too. -/
def search_in_subtree (used : List Nat) (vh : UiNode) :
    ANode → Nat → Nat → List (ANode × ℚ)
  | .node nid d cs, maxDepth, curDepth =>
    if maxDepth < curDepth then []
    else
      (if is_node_available used (.node nid d cs) &&
          decide (0 < calculate_match_score vh (.node nid d cs) false) then
        [(ANode.node nid d cs, calculate_match_score vh (.node nid d cs) false)]
      else []) ++
      search_subtree_list used vh cs maxDepth (curDepth + 1)
/-- The recursion of `_search_in_subtree` over a children list. -/
def search_subtree_list (used : List Nat) (vh : UiNode) :
    List ANode → Nat → Nat → List (ANode × ℚ)
  | [], _, _ => []
  | t :: ts, maxDepth, curDepth =>
    search_in_subtree used vh t maxDepth curDepth ++
    search_subtree_list used vh ts maxDepth curDepth
end

/-- Candidate set 1 of `HybridUIParser._find_best_match`: the available
index entries under the geometry node's id suffix, each scored with the
id bonus, in index (pre-order) order. -/
def id_candidates (ix : Index) (used : List Nat) (vh : UiNode) :
    List (ANode × ℚ) :=
  if !vh.data.resourceId.isEmpty then
    match extract_id_suffix vh.data.resourceId with
    | some suf =>
      if !suf.isEmpty then
        match indexLookup ix suf with
        | some l =>
          (l.filter (is_node_available used)).map
            (fun n => (n, calculate_match_score vh n true))
        | none => []
      else []
    | none => []
  else []

/-- The full candidate list of `_find_best_match`, in the order the
source appends: id-lookup candidates first, then the context-subtree
walk (the context is always a node, so the `if ui_context` guard
holds). -/
def candidates (ix : Index) (used : List Nat) (vh : UiNode) (ctx : ANode) :
    List (ANode × ℚ) :=
  id_candidates ix used vh ++ search_in_subtree used vh ctx 2 0

/-- The selection step of `_find_best_match`: Python stable-sorts the
candidates by descending score and takes the head, i.e. returns the
earliest candidate of maximal score (a later candidate replaces the
current best only when strictly greater). -/
def selectBest : List (ANode × ℚ) → Option (ANode × ℚ)
  | [] => none
  | c :: cs =>
    match selectBest cs with
    | none => some c
    | some d => if c.2 < d.2 then some d else some c

/-- The matcher `HybridUIParser._find_best_match`: the best candidate
wins when its score reaches 0.5 and is then immediately reserved;
otherwise no match and the used set is unchanged. -/
def find_best_match (ix : Index) (used : List Nat) (vh : UiNode)
    (ctx : ANode) : Option ANode × List Nat :=
  match selectBest (candidates ix used vh ctx) with
  | none => (none, used)
  | some (n, s) =>
    if (0.5 : ℚ) ≤ s then (some n, mark_node_used n used) else (none, used)

/-! ## HybridUIParser: merging -/

/-- The copy step `HybridUIParser._supplement_text_info` on the dict
fields of a matched pair: prefer content-desc, else text, recording
`text_source`; always copy raw text; copy resource-id only when the
geometry node's own id is empty; copy each of the nine state flags the
attribute dict carries; mark the node supplemented and matched. -/
def supplement_text_info (vh : NodeData) (ui : NodeData) : NodeData :=
  let v1 :=
    if !ui.contentDesc.isEmpty then
      { vh with contentDesc := ui.contentDesc,
                textSource := some "content-desc".data }
    else if !ui.text.isEmpty then
      { vh with contentDesc := ui.text, textSource := some "text".data }
    else vh
  let v2 := { v1 with text := ui.text }
  let v3 :=
    if !ui.resourceId.isEmpty && vh.resourceId.isEmpty then
      { v2 with resourceId := ui.resourceId }
    else v2
  { v3 with
    clickable := ui.clickable
    enabled := ui.enabled
    focusable := ui.focusable
    scrollable := ui.scrollable
    longClickable := if ui.longClickable.isSome then ui.longClickable
                     else v3.longClickable
    checkable := if ui.checkable.isSome then ui.checkable else v3.checkable
    checked := if ui.checked.isSome then ui.checked else v3.checked
    selected := if ui.selected.isSome then ui.selected else v3.selected
    focused := if ui.focused.isSome then ui.focused else v3.focused
    infoSupplemented := true
    textMatched := some true }

/-- The merge state threaded through `_match_and_merge`: the used set
(object identities of reserved attribute nodes) and the two counters.
`matchedLog` is ghost instrumentation recording the identifier of the
winning attribute node of each match, in match order; it affects no
decision of the algorithm. -/
structure MergeState where
  used : List Nat
  matched : Nat
  unmatched : Nat
  matchedLog : List Nat
  deriving Repr, DecidableEq

mutual
/-- The recursive merge `HybridUIParser._match_and_merge`: match the
geometry node against the context; on a match supplement its fields,
count it matched and recurse into its children with the matched node as
context; otherwise mark it unmatched and recurse with the unchanged
context. -/
def match_and_merge (ix : Index) (vh : UiNode) (ctx : ANode)
    (s : MergeState) : UiNode × MergeState :=
  match vh with
  | .node d cs =>
    match find_best_match ix s.used (.node d cs) ctx with
    | (some m, used') =>
      let s1 : MergeState :=
        ⟨used', s.matched + 1, s.unmatched, s.matchedLog ++ [m.nid]⟩
      let d' := supplement_text_info d m.data
      let r := merge_children ix cs m s1
      (.node d' r.1, r.2)
    | (none, used') =>
      let s1 : MergeState := ⟨used', s.matched, s.unmatched + 1, s.matchedLog⟩
      let d' := { d with textMatched := some false }
      let r := merge_children ix cs ctx s1
      (.node d' r.1, r.2)
/-- The recursion of `_match_and_merge` over the children list. -/
def merge_children (ix : Index) (cs : List UiNode) (ctx : ANode)
    (s : MergeState) : List UiNode × MergeState :=
  match cs with
  | [] => ([], s)
  | c :: cs =>
    let r1 := match_and_merge ix c ctx s
    let r2 := merge_children ix cs ctx r1.2
    (r1.1 :: r2.1, r2.2)
end

/-- The geometry-side content anchor chosen by `merge_trees`: the
anchor when found, else the whole tree. -/
def anchoredVh (vh : UiNode) : UiNode :=
  (find_content_node vh).getD vh

/-- The merge entry point `HybridUIParser.merge_trees` on two present
trees, for a freshly constructed parser (counters 0, no reservations):
anchor both trees at their content nodes (whole tree when absent),
index the anchored attribute tree, and run the recursive merge. -/
def merge_trees (vh ui : UiNode) : UiNode × MergeState :=
  let vhContent := anchoredVh vh
  let uiAnn := (annotate ui 0).1
  let uiContent := (find_content_nodeA uiAnn).getD uiAnn
  let ix := build_ui_index uiContent []
  match_and_merge ix vhContent uiContent ⟨[], 0, 0, []⟩

/-- The statistics record of `HybridUIParser.get_statistics`.
`matchRate` is the exact value matched / total × 100 that the source
formats as a one-decimal percent string, and 0 when total is 0. -/
structure Stats where
  matched : Nat
  unmatched : Nat
  total : Nat
  matchRate : ℚ
  deriving Repr, DecidableEq

/-- The statistics computation `HybridUIParser.get_statistics`. -/
def get_statistics (s : MergeState) : Stats :=
  { matched := s.matched
    unmatched := s.unmatched
    total := s.matched + s.unmatched
    matchRate :=
      if 0 < s.matched + s.unmatched then
        (s.matched : ℚ) / ((s.matched + s.unmatched : Nat) : ℚ) * 100
      else 0 }

/-! ## ViewHierarchyParser: line parsing -/

/-- A character of the class-name pattern [a-zA-Z0-9.$_]. -/
def isClassChar (c : Char) : Bool :=
  c.isAlpha || c.isDigit || c == '.' || c == '$' || c == '_'

/-- A character of [a-f0-9] (the instance-hash run of the id pattern). -/
def isHexLower (c : Char) : Bool :=
  decide ('a' ≤ c ∧ c ≤ 'f') || c.isDigit

/-- Read a maximal non-empty digit run as a number, returning the rest
(one greedy \d+ of the bounds pattern; the following literal is never a
digit, so no backtracking can produce a different match). -/
def readDigits (l : Str) : Option (Nat × Str) :=
  let run := l.takeWhile Char.isDigit
  if run.isEmpty then none
  else some (run.foldl (fun a c => a * 10 + (c.toNat - 48)) 0, l.drop run.length)

/-- Expect one literal character. -/
def expectChar (c : Char) : Str → Option Str
  | x :: rest => if x == c then some rest else none
  | [] => none

/-- Match the bounds pattern (\d+),(\d+)-(\d+),(\d+) at the start of
the string. -/
def matchBoundsAt (l : Str) : Option Bnds := do
  let (a, r1) ← readDigits l
  let r2 ← expectChar ',' r1
  let (b, r3) ← readDigits r2
  let r4 ← expectChar '-' r3
  let (c, r5) ← readDigits r4
  let r6 ← expectChar ',' r5
  let (d, _) ← readDigits r6
  pure ⟨(a : Int), (b : Int), (c : Int), (d : Int)⟩

/-- Python re.search of the bounds pattern: the match at the leftmost
position where one exists. -/
def searchBounds : Str → Option Bnds
  | [] => none
  | c :: rest =>
    match matchBoundsAt (c :: rest) with
    | some b => some b
    | none => searchBounds rest

/-- Read a maximal non-empty [a-zA-Z0-9_]+ run (the captured id). -/
def readIdent (l : Str) : Option Str :=
  let run := l.takeWhile (fun c => c.isAlpha || c.isDigit || c == '_')
  if run.isEmpty then none else some run

/-- Match the resource-id pattern
`#[a-f0-9]+ (?:app|android):id/([a-zA-Z0-9_]+)` at the start of the
string, returning the captured suffix. -/
def matchIdAt (l : Str) : Option Str :=
  match l with
  | '#' :: rest =>
    let hex := rest.takeWhile isHexLower
    if hex.isEmpty then none
    else
      match rest.drop hex.length with
      | ' ' :: r2 =>
        if "app:id/".data.isPrefixOf r2 then readIdent (r2.drop 7)
        else if "android:id/".data.isPrefixOf r2 then readIdent (r2.drop 11)
        else none
      | _ => none
  | _ => none

/-- Python re.search of the resource-id pattern. -/
def searchId : Str → Option Str
  | [] => none
  | c :: rest =>
    match matchIdAt (c :: rest) with
    | some s => some s
    | none => searchId rest

/-- The per-line parse result of `ViewHierarchyParser._parse_line`
(the instance hash is extracted by the source but never read;
`bounds` carries the quadruple of both the `bounds` string and
`bounds_parsed`). -/
structure ViewInfo where
  cls : Str
  bounds : Bnds
  resourceId : Option Str
  visible : Bool
  focusable : Bool
  enabled : Bool
  clickable : Bool
  deriving Repr, DecidableEq

/-- The line parser `ViewHierarchyParser._parse_line` on a stripped
line: a class-name prefix and a bounds quadruple are required, the
resource id is optional, and the state flags come from substring tests;
clickable is set by the ".C" state code or by a Button / TextView class
name. -/
def parse_line (line : Str) : Option ViewInfo :=
  let cls := line.takeWhile isClassChar
  if cls.isEmpty then none
  else
    match searchBounds line with
    | none => none
    | some b =>
      some { cls := cls
             bounds := b
             resourceId := searchId line
             visible := subIn "V.".data line
             focusable := subIn ".F".data line
             enabled := subIn ".E".data line
             clickable := subIn ".C".data line || subIn "Button".data cls ||
                          subIn "TextView".data cls }

/-! ## ViewHierarchyParser: filtering and the parse loop -/

/-- The id blocklist `ViewHierarchyParser.FILTER_IDS`. -/
def FILTER_IDS : List Str :=
  ["action_mode_bar_stub".data, "navigationBarBackground".data,
   "statusBarBackground".data]

/-- The class blocklist `ViewHierarchyParser.FILTER_CLASSES`. -/
def FILTER_CLASSES : List Str :=
  ["android.view.IndicatorBar".data]

/-- The pre-build filter `ViewHierarchyParser._should_filter`: a
blocklisted id substring, an exactly blocklisted class (the class is
always non-empty here, the line parse required it), or relative bounds
that are 0 in width and 0 in height. -/
def should_filter (vi : ViewInfo) : Bool :=
  (match vi.resourceId with
   | some rid => FILTER_IDS.any (fun f => subIn f rid)
   | none => false) ||
  FILTER_CLASSES.any (fun f => f == vi.cls) ||
  (vi.bounds.right - vi.bounds.left == 0 && vi.bounds.bottom - vi.bounds.top == 0)

/-- Absolute-bounds composition
`ViewHierarchyParser._calculate_absolute_bounds`: offset all four child
coordinates by the parent's absolute origin.  In the parse loop both
arguments are quadruples that re-match the bounds pattern they were
formatted from, so the unparseable-fallback branches of the source are
never taken. -/
def calculate_absolute_bounds (p c : Bnds) : Bnds :=
  ⟨p.left + c.left, p.top + c.top, p.left + c.right, p.top + c.bottom⟩

/-- The synthetic root dict `ViewHierarchyParser._create_virtual_root`. -/
def virtualRootData : NodeData :=
  { cls := "RootNode".data, resourceId := [], text := [], contentDesc := []
    clickable := "false".data, enabled := "true".data
    focusable := "false".data, scrollable := "false".data
    longClickable := none, checkable := none, checked := none
    selected := none, focused := none
    package := [], index := "0".data
    bounds? := some ⟨0, 0, 0, 0⟩
    textSource := none, infoSupplemented := false, textMatched := none }

/-- The node dict built by `ViewHierarchyParser._create_ui_node` from a
line's info and its computed absolute bounds (the absolute-bounds
string always re-matches the quadruple pattern, so the geometry keys
are always set). -/
def create_ui_node (vi : ViewInfo) (absB : Bnds) : NodeData :=
  { cls := vi.cls
    resourceId :=
      match vi.resourceId with
      | some rid =>
        if rid == "content".data then "app:id/content".data
        else "app:id/".data ++ rid
      | none => []
    text := [], contentDesc := []
    clickable := pyBool vi.clickable
    enabled := pyBool vi.enabled
    focusable := pyBool vi.focusable
    scrollable := "false".data
    longClickable := none, checkable := none, checked := none
    selected := none, focused := none
    package := [], index := "0".data
    bounds? := some absB
    textSource := none, infoSupplemented := false, textMatched := none }

/-- One entry of the synchronized parent/node stacks of
`ViewHierarchyParser.parse`: the line's indent, its absolute bounds,
its dict, and (functional rendering of the in-place child links) the
children attached so far, newest first. -/
structure Frame where
  indent : Nat
  absB : Bnds
  data : NodeData
  childrenRev : List UiNode
  deriving Repr

/-- The loop state of `ViewHierarchyParser.parse`: the stack, the
virtual root's accumulated top-level children (newest first),
`skip_children_until_indent` (none for -1), and `len(self.views)`. -/
structure PState where
  stack : List Frame
  rootChildrenRev : List UiNode
  skip : Option Nat
  viewsCount : Nat
  deriving Repr

/-- Close a frame into the node the source linked at its creation. -/
def closeFrame (f : Frame) : UiNode :=
  .node f.data f.childrenRev.reverse

/-- The stack maintenance of `ViewHierarchyParser.parse` (the loop
`while parent_stack and parent_stack[-1]['indent'] >= indent_level`),
rendered structurally: `carry` is the node closed by the previous pop,
to be attached to the next frame down (or to the virtual root when the
stack runs out); a frame whose indent is still ≥ the line's closes in
turn and becomes the new carry. -/
def popWhileC (stk : List Frame) (rootRev : List UiNode) (ind : Nat)
    (carry : Option UiNode) : List Frame × List UiNode :=
  match stk with
  | [] =>
    ([], match carry with | some t => t :: rootRev | none => rootRev)
  | f :: rest =>
    let f' :=
      match carry with
      | some t => { f with childrenRev := t :: f.childrenRev }
      | none => f
    if ind ≤ f'.indent then popWhileC rest rootRev ind (some (closeFrame f'))
    else (f' :: rest, rootRev)

/-- Pop the stack down to the frames of indent < `ind`, attaching every
closed frame to its parent. -/
def popWhile (stk : List Frame) (rootRev : List UiNode) (ind : Nat) :
    List Frame × List UiNode :=
  popWhileC stk rootRev ind none

/-- The body of one loop iteration of `ViewHierarchyParser.parse` after
the blank-line and skip checks: parse the line (an unparseable line
changes nothing), apply the pre-build filter (starting a subtree skip),
pop the stack, compose absolute bounds (a top-level line keeps its
relative bounds), build the node, apply the post-build zero-size check
(starting a subtree skip, with the pops kept), and finally link and
push the node. -/
def processBody (s : PState) (line : Str) (ind : Nat) : PState :=
  match parse_line (stripStr line) with
  | none => s
  | some vi =>
    if should_filter vi then { s with skip := some ind }
    else
      let pr := popWhile s.stack s.rootChildrenRev ind
      let absB :=
        match pr.1 with
        | f :: _ => calculate_absolute_bounds f.absB vi.bounds
        | [] => vi.bounds
      let nd := create_ui_node vi absB
      if nd.width == 0 && nd.height == 0 then
        { stack := pr.1, rootChildrenRev := pr.2, skip := some ind
          viewsCount := s.viewsCount }
      else
        { stack := ⟨ind, absB, nd, []⟩ :: pr.1, rootChildrenRev := pr.2
          skip := none, viewsCount := s.viewsCount + 1 }

/-- One loop iteration of `ViewHierarchyParser.parse`: skip blank and
header lines, then honor an active subtree skip (more-indented lines
are dropped; a line at or above the recorded indent clears the skip and
is processed). -/
def processLine (s : PState) (line : Str) : PState :=
  if (stripStr line).isEmpty || subIn "View Hierarchy:".data line then s
  else
    let ind := countIndent line
    match s.skip with
    | some d => if d < ind then s else processBody { s with skip := none } line ind
    | none => processBody s line ind

/-- The initial loop state. -/
def initPState : PState :=
  ⟨[], [], none, 0⟩

/-- The whole loop of `ViewHierarchyParser.parse` over the split
lines. -/
def runParse (text : Str) : PState :=
  (splitNL text).foldl processLine initPState

/-- The output step `ViewHierarchyParser.to_ui_format`: close every
still-open frame (the source linked all nodes at creation), then return
the virtual root's single child when there is exactly one, else the
virtual root. -/
def to_ui_format (s : PState) : UiNode :=
  let rootKids := (popWhile s.stack s.rootChildrenRev 0).2.reverse
  match rootKids with
  | [k] => k
  | ks => .node virtualRootData ks

/-- Geometry parse as used by `HybridUIParser.parse_view_hierarchy`. -/
def parse_view_hierarchy (text : Str) : UiNode :=
  to_ui_format (runParse text)

/-! ## Hybrid-mode dispatch -/

/-- The fresh-parser merge state (counters 0, nothing reserved). -/
def initMergeState : MergeState :=
  ⟨[], 0, 0, []⟩

/-- The guard of `HybridUIParser.merge_trees`: with either tree absent
it reports an error and returns None without touching the counters or
any reservation. -/
def merge_trees_opt (vh ui : Option UiNode) : Option UiNode × MergeState :=
  match vh, ui with
  | some v, some u =>
    let r := merge_trees v u
    (some r.1, r.2)
  | _, _ => (none, initMergeState)

/-- The dispatch of `CarScreenMirrorTool._parseHybridMode` over the two
raw sources.  `hierarchyText` is the raw geometry dump when obtained;
`uiTree` is the attribute tree when the UIAutomator dump was obtained
and parsed (the XML library is external to the repository).  Both
missing: no data.  Geometry text missing: `_parseUIAutomatorMode`, a
passthrough of the attribute tree.  Attribute dump missing:
`_parseViewHierarchyMode`, which publishes the parsed geometry tree
only when at least one view line was parsed (`if views:`).  Both
present: the hybrid merge, which always yields the anchored merged
geometry tree. -/
def parse_hybrid_mode (hierarchyText : Option Str) (uiTree : Option UiNode) :
    Option UiNode :=
  match hierarchyText, uiTree with
  | none, none => none
  | none, some u => some u
  | some h, none =>
    let p := runParse h
    if 0 < p.viewsCount then some (to_ui_format p) else none
  | some h, some u => some (merge_trees (parse_view_hierarchy h) u).1

/-! ## Spec-side score description (for comparison with the source) -/

/-- The id term as the spec describes it: 0.4 for a candidate that came
from the id-suffix lookup. -/
def spec_id_term (fromIdLookup : Bool) : ℚ :=
  if fromIdLookup then 0.4 else 0

/-- The class term as the spec describes it: 0.3 for equal last path
segments, else 0.2 when both fall into the same class family. -/
def spec_class_term (vh : UiNode) (ui : ANode) : ℚ :=
  if lastSegment vh.data.cls == lastSegment ui.data.cls then 0.3
  else if similar_class_names (lastSegment vh.data.cls) (lastSegment ui.data.cls)
    then 0.2
  else 0

/-- Child-count similarity as the spec describes it: 1.0 for equal
counts, min/max when both are nonzero, else 0. -/
def spec_child_sim (vc uc : Nat) : ℚ :=
  if vc = uc then 1
  else if 0 < vc ∧ 0 < uc then (min vc uc : ℚ) / (max vc uc : ℚ)
  else 0

/-- The flag term as the spec describes it: 0.15 × agreeing flags / 4
over clickable, focusable, enabled, scrollable. -/
def spec_flag_term (vh ui : NodeData) : ℚ :=
  0.15 * ((countAgree vh ui : ℚ) / 4)

/-! ## Containment predicates and the parse-loop invariant -/

/-- The bounds of a node's dict (all nodes built by the geometry parser
carry bounds; the virtual root carries [0,0][0,0]). -/
def bOf (d : NodeData) : Bnds :=
  d.bounds?.getD ⟨0, 0, 0, 0⟩

/-- Full containment of `c` inside `p` (the original claim). -/
def boundsContain (p c : Bnds) : Prop :=
  p.left ≤ c.left ∧ p.top ≤ c.top ∧ c.right ≤ p.right ∧ c.bottom ≤ p.bottom

instance (p c : Bnds) : Decidable (boundsContain p c) := by
  unfold boundsContain
  infer_instance

/-- Top-left containment: the child's absolute origin is at or below
and at or right of the parent's. -/
def originLE (p c : NodeData) : Prop :=
  (bOf p).left ≤ (bOf c).left ∧ (bOf p).top ≤ (bOf c).top

mutual
/-- Every node's children have origins at or inside the node's own
top-left corner. -/
def TLCp : UiNode → Prop
  | .node d cs => (∀ c ∈ cs, originLE d c.data) ∧ TLClist cs
/-- `TLCp` over a forest. -/
def TLClist : List UiNode → Prop
  | [] => True
  | t :: ts => TLCp t ∧ TLClist ts
end

/-- A well-formed frame of the parse stack: nonnegative absolute
origin, the dict's bounds are the frame's absolute bounds, and every
attached child is top-left contained with origin at or inside the
frame's. -/
def frameOk (f : Frame) : Prop :=
  0 ≤ f.absB.left ∧ 0 ≤ f.absB.top ∧ f.data.bounds? = some f.absB ∧
  ∀ t ∈ f.childrenRev,
    TLCp t ∧ f.absB.left ≤ (bOf t.data).left ∧ f.absB.top ≤ (bOf t.data).top

/-- The stack invariant: every frame is well formed and origins grow
from bottom to top. -/
def stackOk : List Frame → Prop
  | [] => True
  | [f] => frameOk f
  | f :: g :: rest =>
    frameOk f ∧ g.absB.left ≤ f.absB.left ∧ g.absB.top ≤ f.absB.top ∧
    stackOk (g :: rest)

/-- The root-children invariant: finished top-level trees are top-left
contained and sit at nonnegative origins. -/
def rootOk (l : List UiNode) : Prop :=
  ∀ t ∈ l, TLCp t ∧ 0 ≤ (bOf t.data).left ∧ 0 ≤ (bOf t.data).top

/-- The whole loop-state invariant. -/
def invP (s : PState) : Prop :=
  stackOk s.stack ∧ rootOk s.rootChildrenRev

/-- A carried node may attach to the head of the stack (or to the root
when the stack is empty). -/
def aboveHead (t : UiNode) (stk : List Frame) : Prop :=
  match stk with
  | [] => 0 ≤ (bOf t.data).left ∧ 0 ≤ (bOf t.data).top
  | f :: _ => f.absB.left ≤ (bOf t.data).left ∧ f.absB.top ≤ (bOf t.data).top

/-- A line that an active skip at indent `ind` leaves unprocessed:
blank, header, or indented deeper than `ind`. -/
def inert (ind : Nat) (l : Str) : Prop :=
  (stripStr l).isEmpty = true ∨ subIn "View Hierarchy:".data l = true ∨
  ind < countIndent l

/-! ## Concrete inputs for the examples -/

/-- A node dict with every text field empty and every flag "false". -/
def plainData : NodeData :=
  { cls := [], resourceId := [], text := [], contentDesc := []
    clickable := "false".data, enabled := "false".data
    focusable := "false".data, scrollable := "false".data
    longClickable := none, checkable := none, checked := none
    selected := none, focused := none
    package := [], index := "0".data, bounds? := none
    textSource := none, infoSupplemented := false, textMatched := none }

/-- Set the four compared flags of a dict to "true". -/
def allTrueFlags (d : NodeData) : NodeData :=
  { d with clickable := "true".data, focusable := "true".data,
           enabled := "true".data, scrollable := "true".data }

/-- A geometry child that scores 0 against every candidate below. -/
def c2Dummy : UiNode :=
  .node { plainData with cls := "Qqq".data } []

/-- The geometry node of the tie example: class TextView, id suffix x,
two children, all four flags "true". -/
def c2Vh : UiNode :=
  .node
    (allTrueFlags
      { plainData with cls := "TextView".data, resourceId := "app:id/x".data })
    [c2Dummy, c2Dummy]

/-- An attribute node that never reaches the candidate threshold. -/
def c2DummyA (n : Nat) : ANode :=
  .node n { plainData with cls := "Qqq".data } []

/-- Pre-order position 1: no id, class EditText (same text family),
two children, all flags agreeing — non-id score 0.2 + 0.15 + 0.15 =
0.5. -/
def c2A : ANode :=
  .node 1 (allTrueFlags { plainData with cls := "EditText".data })
    [c2DummyA 2, c2DummyA 3]

/-- Pre-order position 4: id suffix x, unrelated class, three children,
no flag agreeing — id score 0.4 + 0.15 × (2/3) = 0.5. -/
def c2B : ANode :=
  .node 4
    { plainData with cls := "Zzz".data, resourceId := "app:id/x".data }
    [c2DummyA 5, c2DummyA 6, c2DummyA 7]

/-- The attribute context: c2A appears before c2B in pre-order. -/
def c2Ctx : ANode :=
  .node 0 { plainData with cls := "Zzz".data } [c2A, c2B]

/-- The id index of the tie example. -/
def c2Ix : Index :=
  build_ui_index c2Ctx []

/-- A one-node geometry tree whose node matches the one-node attribute
tree below with score 0.3 + 0.15 + 0.15 = 0.6. -/
def c4Vh : UiNode :=
  .node (allTrueFlags { plainData with cls := "TextView".data }) []

/-- The matching one-node attribute tree. -/
def c4Ui : UiNode :=
  .node (allTrueFlags { plainData with cls := "TextView".data }) []

/-- The annotated attribute tree of the reservation example. -/
def c4Ctx : ANode :=
  (annotate c4Ui 0).1

/-- Its id index (empty: the node has no resource id). -/
def c4Ix : Index :=
  build_ui_index c4Ctx []

/-- The matched attribute dict of the supplement example: text "Hello",
no content-description. -/
def c5Ui : NodeData :=
  { plainData with text := "Hello".data }

/-- The zero-area example line: relative bounds 10 wide and 0 high,
hence area 0 but not 0 in both dimensions. -/
def c6line : Str :=
  "android.view.Foo 0,0-10,0".data

/-- The parse of the zero-area line. -/
def c6vi : ViewInfo :=
  { cls := "android.view.Foo".data, bounds := ⟨0, 0, 10, 0⟩
    resourceId := none, visible := false, focusable := true
    enabled := false, clickable := false }

/-- A blocklisted line (id contains statusBarBackground) at indent 0. -/
def c6wLine : Str :=
  "android.B 0,0-5,5 #aa app:id/statusBarBackground".data

/-- A more-indented follower of the blocklisted line. -/
def c6wChild : Str :=
  " android.C 1,2-3,4".data

/-- The containment counterexample: a child whose relative bounds
exceed its parent's extent. -/
def c7input : Str :=
  "android.A 0,0-10,10\n android.B 0,0-50,50".data

/-- A two-node tree for the point-query example. -/
def c8Tree : UiNode :=
  .node { plainData with cls := "A".data, bounds? := some ⟨0, 0, 100, 100⟩ }
    [.node { plainData with cls := "B".data, bounds? := some ⟨10, 20, 30, 40⟩ } []]

/-- A geometry dump in which no line parses: the raw source is present
but yields no views. -/
def c9garbage : Str :=
  "xyz".data

/-- A one-line parsable geometry dump. -/
def c9text : Str :=
  "android.A 0,0-3,3".data

/-- A one-node attribute tree for the dispatch example. -/
def c9UiTree : UiNode :=
  .node { plainData with cls := "android.widget.FrameLayout".data } []

/-- A TextView line carrying no ".C" state code. -/
def c10line : Str :=
  "android.widget.TextView 1,2-3,4".data

/-- Its parse: clickable is reported true from the class name alone. -/
def c10vi : ViewInfo :=
  { cls := "android.widget.TextView".data, bounds := ⟨1, 2, 3, 4⟩
    resourceId := none, visible := false, focusable := false
    enabled := false, clickable := true }

/-! ## Theorems: the score (C3) -/

theorem countAgree_le_four (a b : NodeData) : countAgree a b ≤ 4 := by
  unfold countAgree
  split_ifs <;> norm_num

theorem spec_child_sim_nonneg (vc uc : Nat) : 0 ≤ spec_child_sim vc uc := by
  unfold spec_child_sim
  split_ifs with h1 h2
  · norm_num
  · positivity
  · norm_num

theorem spec_child_sim_le_one (vc uc : Nat) : spec_child_sim vc uc ≤ 1 := by
  unfold spec_child_sim
  split_ifs with h1 h2
  · norm_num
  · have hmax : 0 < max vc uc := lt_of_lt_of_le h2.1 (le_max_left _ _)
    rw [div_le_one (by exact_mod_cast hmax)]
    exact_mod_cast min_le_max
  · norm_num

/-- C3: for every geometry node and attribute candidate, the match
score equals the sum of the id term (0.4 when the candidate came from
the id-suffix lookup), the class term (0.3 for equal last path
segments, else 0.2 for the same class family), 0.15 × child-count
similarity (1 for equal counts, min/max when both nonzero, else 0) and
0.15 × agreeing-flags/4 over clickable, focusable, enabled, scrollable
— and the score always lies in [0, 1]. -/
theorem c3_score_formula_and_bounds (vh : UiNode) (ui : ANode) (b : Bool) :
    calculate_match_score vh ui b =
      spec_id_term b + spec_class_term vh ui +
      0.15 * spec_child_sim vh.children.length ui.children.length +
      spec_flag_term vh.data ui.data ∧
    0 ≤ calculate_match_score vh ui b ∧ calculate_match_score vh ui b ≤ 1 := by
  have heq : calculate_match_score vh ui b =
      spec_id_term b + spec_class_term vh ui +
      0.15 * spec_child_sim vh.children.length ui.children.length +
      spec_flag_term vh.data ui.data := by
    simp only [calculate_match_score, spec_id_term, spec_class_term,
      spec_child_sim, spec_flag_term]
    split_ifs <;> ring
  have h1a : (0 : ℚ) ≤ spec_id_term b := by
    unfold spec_id_term; split_ifs <;> norm_num
  have h1b : spec_id_term b ≤ 0.4 := by
    unfold spec_id_term; split_ifs <;> norm_num
  have h2a : (0 : ℚ) ≤ spec_class_term vh ui := by
    unfold spec_class_term; split_ifs <;> norm_num
  have h2b : spec_class_term vh ui ≤ 0.3 := by
    unfold spec_class_term; split_ifs <;> norm_num
  have h3a : (0 : ℚ) ≤ 0.15 * spec_child_sim vh.children.length ui.children.length := by
    have := spec_child_sim_nonneg vh.children.length ui.children.length
    nlinarith
  have h3b : 0.15 * spec_child_sim vh.children.length ui.children.length ≤ 0.15 := by
    have := spec_child_sim_le_one vh.children.length ui.children.length
    nlinarith
  have h4a : (0 : ℚ) ≤ spec_flag_term vh.data ui.data := by
    unfold spec_flag_term; positivity
  have h4b : spec_flag_term vh.data ui.data ≤ 0.15 := by
    unfold spec_flag_term
    have h := countAgree_le_four vh.data ui.data
    have h' : ((countAgree vh.data ui.data : ℚ) / 4) ≤ 1 := by
      rw [div_le_one (by norm_num)]
      exact_mod_cast h
    nlinarith
  refine ⟨heq, ?_, ?_⟩ <;> rw [heq] <;> linarith

/-! ## Theorems: selection (C2) -/

theorem selectBest_none_iff :
    ∀ l : List (ANode × ℚ), selectBest l = none ↔ l = []
  | [] => by simp [selectBest]
  | c :: cs => by
    simp only [selectBest]
    rcases h : selectBest cs with _ | d
    · simp
    · simp only []
      constructor
      · intro hc
        split at hc <;> simp_all
      · intro hc
        simp at hc

theorem selectBest_split :
    ∀ (l : List (ANode × ℚ)) (n : ANode) (s : ℚ),
      selectBest l = some (n, s) →
      ∃ l1 l2, l = l1 ++ (n, s) :: l2 ∧ (∀ p ∈ l, p.2 ≤ s) ∧ ∀ p ∈ l1, p.2 < s
  | [], n, s => by simp [selectBest]
  | c :: cs, n, s => by
    intro h
    simp only [selectBest] at h
    rcases hcs : selectBest cs with _ | ⟨m, t⟩
    · rw [hcs] at h
      dsimp only at h
      have hnil : cs = [] := (selectBest_none_iff cs).1 hcs
      subst hnil
      simp only [Option.some.injEq] at h
      have hs : c.2 = s := by rw [h]
      refine ⟨[], [], by simp [h], ?_, by simp⟩
      intro p hp
      simp only [List.mem_singleton] at hp
      rw [hp, hs]
    · rw [hcs] at h
      dsimp only at h
      by_cases hlt : c.2 < t
      · rw [if_pos hlt] at h
        simp only [Option.some.injEq] at h
        obtain ⟨l1, l2, hsplit, hmax, hstrict⟩ :=
          selectBest_split cs n s (by rw [hcs, h])
        have hts : t = s := congrArg Prod.snd h
        rw [hts] at hlt
        refine ⟨c :: l1, l2, by simp [hsplit], ?_, ?_⟩
        · intro p hp
          rcases List.mem_cons.1 hp with hc | hc
          · rw [hc]
            exact le_of_lt hlt
          · exact hmax p hc
        · intro p hp
          rcases List.mem_cons.1 hp with hc | hc
          · rw [hc]
            exact hlt
          · exact hstrict p hc
      · rw [if_neg hlt] at h
        simp only [Option.some.injEq] at h
        obtain ⟨l1, l2, hsplit, hmax, hstrict⟩ := selectBest_split cs m t hcs
        have hs : c.2 = s := by rw [h]
        refine ⟨[], cs, by simp [← h], ?_, by simp⟩
        intro p hp
        rcases List.mem_cons.1 hp with hc | hc
        · rw [hc, hs]
        · calc p.2 ≤ t := hmax p hc
            _ ≤ c.2 := le_of_not_lt hlt
            _ = s := hs

/-- C2 (amended): the matcher returns the candidate of maximal score
when that score reaches 0.5 (ties broken by first position in the
candidate list, in which id-lookup candidates precede the context
subtree's pre-order walk), and no match when every candidate scores
below 0.5; the tie-break therefore follows candidate-list order, not
attribute-tree pre-order across the two candidate sets. -/
theorem c2_selection_rule (ix : Index) (used : List Nat) (vh : UiNode)
    (ctx : ANode) :
    (∀ n, (find_best_match ix used vh ctx).1 = some n →
      ∃ s l1 l2, candidates ix used vh ctx = l1 ++ (n, s) :: l2 ∧
        (1 : ℚ)/2 ≤ s ∧ (∀ p ∈ candidates ix used vh ctx, p.2 ≤ s) ∧
        ∀ p ∈ l1, p.2 < s) ∧
    ((find_best_match ix used vh ctx).1 = none →
      ∀ p ∈ candidates ix used vh ctx, p.2 < 1/2) := by
  unfold find_best_match
  rcases h : selectBest (candidates ix used vh ctx) with _ | ⟨m, t⟩
  · have hnil := (selectBest_none_iff _).1 h
    constructor
    · intro n hn
      simp at hn
    · intro _ p hp
      rw [hnil] at hp
      simp at hp
  · obtain ⟨l1, l2, hsplit, hmax, hstrict⟩ := selectBest_split _ m t h
    by_cases hth : (0.5 : ℚ) ≤ t
    · constructor
      · intro n hn
        dsimp only at hn
        rw [if_pos hth] at hn
        simp only [Option.some.injEq] at hn
        subst hn
        exact ⟨t, l1, l2, hsplit, by linarith, hmax, hstrict⟩
      · intro hn
        dsimp only at hn
        rw [if_pos hth] at hn
        simp at hn
    · constructor
      · intro n hn
        dsimp only at hn
        rw [if_neg hth] at hn
        simp at hn
      · intro _ p hp
        have := hmax p hp
        have ht2 : t < 1/2 := by
          rw [not_le] at hth
          linarith
        linarith

/-- C2 counterexample: in this concrete instance two candidates score
exactly 1/2 each (at or above the threshold); the id-lookup candidate
c2B sits at pre-order position 4 of the attribute tree while the
subtree candidate c2A sits at position 1, yet the matcher selects c2B
— the first-in-pre-order candidate is not the one selected. -/
theorem c2_counterexample :
    calculate_match_score c2Vh c2A false = 1/2 ∧
    calculate_match_score c2Vh c2B true = 1/2 ∧
    candidates c2Ix [] c2Vh c2Ctx =
      [(c2B, 1/2), (c2Ctx, 3/20), (c2A, 1/2), (c2B, 1/10)] ∧
    (preorderA c2Ctx).map ANode.nid = [0, 1, 2, 3, 4, 5, 6, 7] ∧
    c2A.nid = 1 ∧ c2B.nid = 4 ∧
    (find_best_match c2Ix [] c2Vh c2Ctx).1.map ANode.nid = some 4 := by
  refine ⟨?_, ?_, ?_, ?_, ?_, ?_, ?_⟩ <;>
    norm_num +decide [find_best_match, candidates, id_candidates,
      search_in_subtree, search_subtree_list, selectBest,
      calculate_match_score, lastSegment, afterLast, occPositions,
      similar_class_names, type_groups, subIn, countAgree,
      extract_id_suffix, indexLookup, indexInsert, build_ui_index,
      build_ui_index_list, is_node_available, mark_node_used, preorderA,
      preorderListA, c2Vh, c2A, c2B, c2Ctx, c2Ix, c2Dummy, c2DummyA,
      plainData, allTrueFlags, UiNode.data, UiNode.children, ANode.data,
      ANode.children, ANode.nid]

/-- Witness for c2_selection_rule at the tie example: the matcher
selected c2B, so c2B heads a maximal-score split of the candidate
list. -/
theorem c2_selection_rule_witness :
    ∃ s l1 l2, candidates c2Ix [] c2Vh c2Ctx = l1 ++ (c2B, s) :: l2 ∧
      (1 : ℚ)/2 ≤ s ∧ (∀ p ∈ candidates c2Ix [] c2Vh c2Ctx, p.2 ≤ s) ∧
      ∀ p ∈ l1, p.2 < s :=
  (c2_selection_rule c2Ix [] c2Vh c2Ctx).1 c2B
    (by norm_num +decide [find_best_match, candidates, id_candidates,
      search_in_subtree, search_subtree_list, selectBest,
      calculate_match_score, lastSegment, afterLast, occPositions,
      similar_class_names, type_groups, subIn, countAgree,
      extract_id_suffix, indexLookup, indexInsert, build_ui_index,
      build_ui_index_list, is_node_available, mark_node_used,
      c2Vh, c2A, c2B, c2Ctx, c2Ix, c2Dummy, c2DummyA,
      plainData, allTrueFlags, UiNode.data, UiNode.children, ANode.data,
      ANode.children, ANode.nid])

/-! ## Theorems: reservation (C4) -/

theorem available_not_mem (used : List Nat) (n : ANode) :
    is_node_available used n = true → n.nid ∉ used := by
  intro h hmem
  simp only [is_node_available, Bool.not_eq_true'] at h
  have hc : used.contains n.nid = true := by simpa using hmem
  rw [hc] at h
  simp at h

mutual
theorem search_subtree_available :
    ∀ (used : List Nat) (vh : UiNode) (root : ANode) (md cd : Nat)
      (p : ANode × ℚ), p ∈ search_in_subtree used vh root md cd →
      is_node_available used p.1 = true
  | used, vh, .node nid d cs, md, cd, p => by
    intro hp
    simp only [search_in_subtree] at hp
    by_cases hd : md < cd
    · rw [if_pos hd] at hp
      simp at hp
    · rw [if_neg hd] at hp
      rcases List.mem_append.1 hp with h1 | h2
      · split at h1
        · next hc =>
          simp only [List.mem_singleton] at h1
          rw [h1]
          rw [Bool.and_eq_true] at hc
          exact hc.1
        · simp at h1
      · exact search_subtree_list_available used vh cs md (cd + 1) p h2
theorem search_subtree_list_available :
    ∀ (used : List Nat) (vh : UiNode) (ts : List ANode) (md cd : Nat)
      (p : ANode × ℚ), p ∈ search_subtree_list used vh ts md cd →
      is_node_available used p.1 = true
  | used, vh, [], md, cd, p => by
    intro hp
    simp [search_subtree_list] at hp
  | used, vh, t :: ts, md, cd, p => by
    intro hp
    simp only [search_subtree_list] at hp
    rcases List.mem_append.1 hp with h1 | h2
    · exact search_subtree_available used vh t md cd p h1
    · exact search_subtree_list_available used vh ts md cd p h2
end

theorem id_candidates_available (ix : Index) (used : List Nat) (vh : UiNode)
    (p : ANode × ℚ) : p ∈ id_candidates ix used vh →
    is_node_available used p.1 = true := by
  intro hp
  unfold id_candidates at hp
  split at hp
  · rcases hx : extract_id_suffix vh.data.resourceId with _ | suf <;> rw [hx] at hp
    · simp at hp
    · dsimp only at hp
      split at hp
      · rcases hl : indexLookup ix suf with _ | l <;> rw [hl] at hp
        · simp at hp
        · dsimp only at hp
          rcases List.mem_map.1 hp with ⟨n, hn, hpn⟩
          rw [← hpn]
          exact (List.mem_filter.1 hn).2
      · simp at hp
  · simp at hp

theorem candidates_available (ix : Index) (used : List Nat) (vh : UiNode)
    (ctx : ANode) (p : ANode × ℚ) :
    p ∈ candidates ix used vh ctx → is_node_available used p.1 = true := by
  intro hp
  rcases List.mem_append.1 hp with h1 | h2
  · exact id_candidates_available ix used vh p h1
  · exact search_subtree_available used vh ctx 2 0 p h2

theorem find_best_match_cases (ix : Index) (used : List Nat) (vh : UiNode)
    (ctx : ANode) :
    find_best_match ix used vh ctx = (none, used) ∨
    ∃ n, find_best_match ix used vh ctx = (some n, n.nid :: used) ∧
      n.nid ∉ used := by
  unfold find_best_match
  rcases h : selectBest (candidates ix used vh ctx) with _ | ⟨m, t⟩
  · left
    rfl
  · by_cases hth : (0.5 : ℚ) ≤ t
    · right
      refine ⟨m, ?_, ?_⟩
      · dsimp only
        rw [if_pos hth]
        rfl
      · obtain ⟨l1, l2, hsplit, _, _⟩ := selectBest_split _ m t h
        have hmem : (m, t) ∈ candidates ix used vh ctx := by
          rw [hsplit]
          simp
        exact available_not_mem used m
          (candidates_available ix used vh ctx (m, t) hmem)
    · left
      dsimp only
      rw [if_neg hth]

mutual
theorem merge_log_ok :
    ∀ (ix : Index) (vh : UiNode) (ctx : ANode) (s : MergeState),
      s.matchedLog.Nodup → (∀ i ∈ s.matchedLog, i ∈ s.used) →
      (match_and_merge ix vh ctx s).2.matchedLog.Nodup ∧
      (∀ i ∈ (match_and_merge ix vh ctx s).2.matchedLog,
        i ∈ (match_and_merge ix vh ctx s).2.used) ∧
      ∀ i ∈ s.used, i ∈ (match_and_merge ix vh ctx s).2.used
  | ix, .node d cs, ctx, s => by
    intro h1 h2
    rcases find_best_match_cases ix s.used (.node d cs) ctx with hf | ⟨m, hf, hm⟩
    · simp only [match_and_merge, hf]
      exact merge_children_log_ok ix cs ctx _ h1 h2
    · simp only [match_and_merge, hf]
      have pf1 : (s.matchedLog ++ [m.nid]).Nodup := by
        simp only [List.nodup_append, List.nodup_cons, List.nodup_nil]
        refine ⟨h1, by simp, ?_⟩
        intro a ha hb
        simp only [List.mem_singleton] at hb
        exact hm (hb ▸ h2 a ha)
      have pf2 : ∀ i ∈ s.matchedLog ++ [m.nid], i ∈ m.nid :: s.used := by
        intro i hi
        rcases List.mem_append.1 hi with hi | hi
        · exact List.mem_cons_of_mem _ (h2 i hi)
        · simp only [List.mem_singleton] at hi
          simp [hi]
      obtain ⟨k1, k2, k3⟩ := merge_children_log_ok ix cs m
        ⟨m.nid :: s.used, s.matched + 1, s.unmatched, s.matchedLog ++ [m.nid]⟩
        pf1 pf2
      exact ⟨k1, k2, fun i hi => k3 i (List.mem_cons_of_mem _ hi)⟩
theorem merge_children_log_ok :
    ∀ (ix : Index) (cs : List UiNode) (ctx : ANode) (s : MergeState),
      s.matchedLog.Nodup → (∀ i ∈ s.matchedLog, i ∈ s.used) →
      (merge_children ix cs ctx s).2.matchedLog.Nodup ∧
      (∀ i ∈ (merge_children ix cs ctx s).2.matchedLog,
        i ∈ (merge_children ix cs ctx s).2.used) ∧
      ∀ i ∈ s.used, i ∈ (merge_children ix cs ctx s).2.used
  | ix, [], ctx, s => by
    intro h1 h2
    simp only [merge_children]
    exact ⟨h1, h2, fun i hi => hi⟩
  | ix, c :: cs, ctx, s => by
    intro h1 h2
    simp only [merge_children]
    obtain ⟨g1, g2, g3⟩ := merge_log_ok ix c ctx s h1 h2
    obtain ⟨k1, k2, k3⟩ :=
      merge_children_log_ok ix cs ctx (match_and_merge ix c ctx s).2 g1 g2
    exact ⟨k1, k2, fun i hi => k3 i (g3 i hi)⟩
end

/-- C4: a winning candidate is reserved at the moment of selection (the
used set becomes its identity prepended to the old set and it was not
reserved before); a reserved node never enters a candidate set; hence
over a whole merge pass the winning attribute nodes logged by the merge
are pairwise distinct — each attribute node is matched to at most one
geometry node. -/
theorem c4_reservation_exclusive :
    (∀ (ix : Index) (used : List Nat) (vh : UiNode) (ctx : ANode)
       (p : ANode × ℚ), p ∈ candidates ix used vh ctx → p.1.nid ∉ used) ∧
    (∀ (ix : Index) (used : List Nat) (vh : UiNode) (ctx : ANode) (n : ANode),
       (find_best_match ix used vh ctx).1 = some n →
       (find_best_match ix used vh ctx).2 = n.nid :: used ∧ n.nid ∉ used) ∧
    ∀ vh ui : UiNode, (merge_trees vh ui).2.matchedLog.Nodup := by
  refine ⟨?_, ?_, ?_⟩
  · intro ix used vh ctx p hp
    exact available_not_mem used p.1 (candidates_available ix used vh ctx p hp)
  · intro ix used vh ctx n hn
    rcases find_best_match_cases ix used vh ctx with hf | ⟨m, hf, hm⟩
    · rw [hf] at hn
      simp at hn
    · rw [hf] at hn
      simp only [Option.some.injEq] at hn
      subst hn
      rw [hf]
      exact ⟨rfl, hm⟩
  · intro vh ui
    unfold merge_trees
    exact (merge_log_ok _ _ _ _ (by simp) (by simp)).1

/-- Witness for c4_reservation_exclusive: in the one-node merge
example, the candidate found in the context subtree is unreserved, the
matcher reserves exactly it, and the full merge logs pairwise distinct
winners. -/
theorem c4_reservation_exclusive_witness :
    (c4Ctx, calculate_match_score c4Vh c4Ctx false).1.nid ∉ ([] : List Nat) ∧
    ((find_best_match c4Ix [] c4Vh c4Ctx).2 = c4Ctx.nid :: [] ∧
      c4Ctx.nid ∉ ([] : List Nat)) ∧
    (merge_trees c4Vh c4Ui).2.matchedLog.Nodup := by
  refine ⟨c4_reservation_exclusive.1 c4Ix [] c4Vh c4Ctx _ ?_,
    c4_reservation_exclusive.2.1 c4Ix [] c4Vh c4Ctx c4Ctx ?_,
    c4_reservation_exclusive.2.2 c4Vh c4Ui⟩
  · norm_num +decide [candidates, id_candidates, search_in_subtree,
      search_subtree_list, calculate_match_score, lastSegment, afterLast,
      occPositions, similar_class_names, type_groups, subIn, countAgree,
      extract_id_suffix, indexLookup, indexInsert, build_ui_index,
      build_ui_index_list, is_node_available, annotate, annotateList,
      c4Vh, c4Ui, c4Ctx, c4Ix, plainData, allTrueFlags, UiNode.data,
      UiNode.children, ANode.data, ANode.children, ANode.nid]
  · norm_num +decide [find_best_match, candidates, id_candidates,
      search_in_subtree, search_subtree_list, selectBest,
      calculate_match_score, lastSegment, afterLast, occPositions,
      similar_class_names, type_groups, subIn, countAgree,
      extract_id_suffix, indexLookup, indexInsert, build_ui_index,
      build_ui_index_list, is_node_available, mark_node_used, annotate,
      annotateList, c4Vh, c4Ui, c4Ctx, c4Ix, plainData, allTrueFlags,
      UiNode.data, UiNode.children, ANode.data, ANode.children, ANode.nid]

/-! ## Theorems: conservation and statistics (C1) -/

mutual
theorem merge_counts :
    ∀ (ix : Index) (vh : UiNode) (ctx : ANode) (s : MergeState),
      (match_and_merge ix vh ctx s).2.matched +
        (match_and_merge ix vh ctx s).2.unmatched =
      s.matched + s.unmatched + treeSize vh
  | ix, .node d cs, ctx, s => by
    rcases find_best_match_cases ix s.used (.node d cs) ctx with hf | ⟨m, hf, _⟩
    · simp only [match_and_merge, hf]
      have h := merge_children_counts ix cs ctx
        ⟨s.used, s.matched, s.unmatched + 1, s.matchedLog⟩
      dsimp only at h
      simp only [treeSize]
      omega
    · simp only [match_and_merge, hf]
      have h := merge_children_counts ix cs m
        ⟨m.nid :: s.used, s.matched + 1, s.unmatched, s.matchedLog ++ [m.nid]⟩
      dsimp only at h
      simp only [treeSize]
      omega
theorem merge_children_counts :
    ∀ (ix : Index) (cs : List UiNode) (ctx : ANode) (s : MergeState),
      (merge_children ix cs ctx s).2.matched +
        (merge_children ix cs ctx s).2.unmatched =
      s.matched + s.unmatched + treeSizeList cs
  | ix, [], ctx, s => by
    simp [merge_children, treeSizeList]
  | ix, c :: cs, ctx, s => by
    simp only [merge_children]
    have h1 := merge_counts ix c ctx s
    have h2 := merge_children_counts ix cs ctx (match_and_merge ix c ctx s).2
    simp only [treeSizeList]
    omega
end

/-- C1: after a merge of two present trees from a fresh parser, the
matched plus unmatched counters equal the node count of the (possibly
anchored) geometry tree, and the statistics record reports
total = matched + unmatched and match_rate = matched / total × 100,
or 0 when total is 0. -/
theorem c1_conservation_and_statistics (vh ui : UiNode) :
    (merge_trees vh ui).2.matched + (merge_trees vh ui).2.unmatched =
      treeSize (anchoredVh vh) ∧
    (get_statistics (merge_trees vh ui).2).total =
      (merge_trees vh ui).2.matched + (merge_trees vh ui).2.unmatched ∧
    (get_statistics (merge_trees vh ui).2).matchRate =
      (if 0 < (get_statistics (merge_trees vh ui).2).total then
        ((merge_trees vh ui).2.matched : ℚ) /
          ((get_statistics (merge_trees vh ui).2).total : ℚ) * 100
      else 0) := by
  refine ⟨?_, rfl, rfl⟩
  have h := merge_counts
    (build_ui_index ((find_content_nodeA (annotate ui 0).1).getD (annotate ui 0).1) [])
    (anchoredVh vh)
    ((find_content_nodeA (annotate ui 0).1).getD (annotate ui 0).1)
    ⟨[], 0, 0, []⟩
  simpa [merge_trees] using h

/-! ## Theorems: the supplement step (C5) -/

/-- C5: on a match, the merger copies the attribute node's
content-description when non-empty (recording text_source
"content-desc"), else copies its text into content-description
(recording text_source "text"); it always copies the raw text
verbatim; it copies the resource-id only when the geometry node's own
id is empty; and a matched attribute node with text "Hello" and no
content-description yields text "Hello" with text_source "text". -/
theorem c5_supplement_rules (vh ui : NodeData) :
    (supplement_text_info vh ui).text = ui.text ∧
    (ui.contentDesc ≠ [] →
      (supplement_text_info vh ui).contentDesc = ui.contentDesc ∧
      (supplement_text_info vh ui).textSource = some "content-desc".data) ∧
    (ui.contentDesc = [] → ui.text ≠ [] →
      (supplement_text_info vh ui).contentDesc = ui.text ∧
      (supplement_text_info vh ui).textSource = some "text".data) ∧
    (vh.resourceId ≠ [] →
      (supplement_text_info vh ui).resourceId = vh.resourceId) ∧
    (vh.resourceId = [] → ui.resourceId ≠ [] →
      (supplement_text_info vh ui).resourceId = ui.resourceId) ∧
    (supplement_text_info vh
        { ui with text := "Hello".data, contentDesc := [] }).text =
      "Hello".data ∧
    (supplement_text_info vh
        { ui with text := "Hello".data, contentDesc := [] }).textSource =
      some "text".data := by
  refine ⟨?_, ?_, ?_, ?_, ?_, ?_, ?_⟩ <;>
    simp only [supplement_text_info] <;>
    split_ifs <;>
    simp_all [List.isEmpty_iff] <;>
    tauto

/-- Witness for c5_supplement_rules: concrete supplements exercising
the text branch, the content-desc branch, and both resource-id
branches. -/
theorem c5_supplement_rules_witness :
    ((supplement_text_info plainData c5Ui).contentDesc = c5Ui.text ∧
      (supplement_text_info plainData c5Ui).textSource = some "text".data) ∧
    ((supplement_text_info plainData
        { plainData with contentDesc := "Hi".data }).contentDesc =
      ({ plainData with contentDesc := "Hi".data } : NodeData).contentDesc ∧
      (supplement_text_info plainData
        { plainData with contentDesc := "Hi".data }).textSource =
      some "content-desc".data) ∧
    (supplement_text_info { plainData with resourceId := "a".data }
        c5Ui).resourceId =
      ({ plainData with resourceId := "a".data } : NodeData).resourceId ∧
    (supplement_text_info plainData
        { plainData with resourceId := "x".data }).resourceId =
      ({ plainData with resourceId := "x".data } : NodeData).resourceId :=
  ⟨(c5_supplement_rules plainData c5Ui).2.2.1 (by decide) (by decide),
    (c5_supplement_rules plainData _).2.1 (by decide),
    (c5_supplement_rules _ c5Ui).2.2.2.1 (by decide),
    (c5_supplement_rules plainData _).2.2.2.2.1 (by decide) (by decide)⟩

/-! ## Theorems: the point query (C8) -/

mutual
theorem find_elements_eq_filter :
    ∀ (t : UiNode) (x y : Int),
      find_elements_at_point t x y =
        (preorder t).filter (fun n => containsPoint n.data x y)
  | .node d cs, x, y => by
    simp only [find_elements_at_point, preorder, List.filter_cons]
    rw [find_elements_list_eq_filter cs x y]
    by_cases h : containsPoint d x y
    · simp [UiNode.data, h]
    · simp [UiNode.data, h]
theorem find_elements_list_eq_filter :
    ∀ (ts : List UiNode) (x y : Int),
      find_elements_list ts x y =
        (preorderList ts).filter (fun n => containsPoint n.data x y)
  | [], x, y => by simp [find_elements_list, preorderList]
  | t :: ts, x, y => by
    simp only [find_elements_list, preorderList, List.filter_append]
    rw [find_elements_eq_filter t x y, find_elements_list_eq_filter ts x y]
end

theorem foldl_minArea_mem (ts : List UiNode) (b : UiNode) :
    ts.foldl (fun b u => if area u < area b then u else b) b = b ∨
    ts.foldl (fun b u => if area u < area b then u else b) b ∈ ts := by
  induction ts generalizing b with
  | nil => simp
  | cons t ts ih =>
    simp only [List.foldl_cons]
    rcases ih (if area t < area b then t else b) with h | h
    · rw [h]
      split_ifs with hc
      · right
        simp
      · left
        rfl
    · right
      exact List.mem_cons_of_mem _ h
theorem foldl_minArea_le (ts : List UiNode) (b : UiNode) :
    area (ts.foldl (fun b u => if area u < area b then u else b) b) ≤ area b ∧
    ∀ u ∈ ts,
      area (ts.foldl (fun b u => if area u < area b then u else b) b) ≤ area u := by
  induction ts generalizing b with
  | nil => simp
  | cons t ts ih =>
    simp only [List.foldl_cons]
    obtain ⟨h1, h2⟩ := ih (if area t < area b then t else b)
    constructor
    · apply le_trans h1
      split_ifs with hc
      · exact le_of_lt hc
      · exact le_refl _
    · intro u hu
      rcases List.mem_cons.1 hu with hu | hu
      · subst hu
        apply le_trans h1
        split_ifs with hc
        · exact le_refl _
        · exact le_of_not_lt hc
      · exact h2 u hu

theorem containsPoint_isSome (d : NodeData) (x y : Int) :
    containsPoint d x y = true → d.bounds?.isSome = true := by
  unfold containsPoint
  cases d.bounds? <;> simp

/-- C8: the point query returns None exactly when no node with parsed
geometry contains the point; otherwise it returns a node of the tree
that has geometry, contains the point, and whose area (width × height)
is minimal among all containing nodes. -/
theorem c8_point_query (t : UiNode) (x y : Int) :
    (find_element_at_point t x y = none ↔
      ∀ n ∈ preorder t, containsPoint n.data x y = false) ∧
    ∀ e, find_element_at_point t x y = some e →
      e ∈ preorder t ∧ containsPoint e.data x y = true ∧
      e.data.bounds?.isSome = true ∧
      ∀ n ∈ preorder t, containsPoint n.data x y = true → area e ≤ area n := by
  have hq : find_element_at_point t x y =
      minByArea ((preorder t).filter (fun n => containsPoint n.data x y)) := by
    rw [find_element_at_point, find_elements_eq_filter]
  rcases hl : (preorder t).filter (fun n => containsPoint n.data x y)
    with _ | ⟨a, as⟩
  · constructor
    · rw [hq, hl]
      simp only [minByArea]
      constructor
      · intro _ n hn
        by_contra hc
        rw [Bool.not_eq_false] at hc
        have hm : n ∈ (preorder t).filter (fun n => containsPoint n.data x y) :=
          List.mem_filter.2 ⟨hn, hc⟩
        rw [hl] at hm
        simp at hm
      · intro _
        trivial
    · intro e he
      rw [hq, hl] at he
      simp [minByArea] at he
  · constructor
    · rw [hq, hl]
      simp only [minByArea]
      constructor
      · intro h
        simp at h
      · intro hall
        exfalso
        have ha : a ∈ (preorder t).filter (fun n => containsPoint n.data x y) := by
          rw [hl]
          exact List.mem_cons_self a as
        have h1 := List.mem_filter.1 ha
        have h2 := hall a h1.1
        simp [h2] at h1
    · intro e he
      rw [hq, hl] at he
      simp only [minByArea, Option.some.injEq] at he
      subst he
      have hm := foldl_minArea_mem as a
      have hle := foldl_minArea_le as a
      have hin :
          as.foldl (fun b u => if area u < area b then u else b) a ∈ a :: as := by
        rcases hm with h | h
        · rw [h]
          exact List.mem_cons_self a as
        · exact List.mem_cons_of_mem _ h
      have hfil :
          as.foldl (fun b u => if area u < area b then u else b) a ∈
            (preorder t).filter (fun n => containsPoint n.data x y) := by
        rw [hl]
        exact hin
      have h1 := List.mem_filter.1 hfil
      refine ⟨h1.1, h1.2, containsPoint_isSome _ x y h1.2, ?_⟩
      intro n hn hc
      have hnf : n ∈ (preorder t).filter (fun n => containsPoint n.data x y) :=
        List.mem_filter.2 ⟨hn, hc⟩
      rw [hl] at hnf
      rcases List.mem_cons.1 hnf with h | h
      · rw [h]
        exact hle.1
      · exact hle.2 n h

/-- Witness for c8_point_query: in the concrete two-node tree, the
query at (15, 25) returns the inner node B, which contains the point
with minimal area. -/
theorem c8_point_query_witness :
    (UiNode.node
        { plainData with cls := "B".data, bounds? := some ⟨10, 20, 30, 40⟩ } []) ∈
      preorder c8Tree ∧
    containsPoint
      (UiNode.node
        { plainData with cls := "B".data, bounds? := some ⟨10, 20, 30, 40⟩ }
        []).data 15 25 = true ∧
    (UiNode.node
        { plainData with cls := "B".data, bounds? := some ⟨10, 20, 30, 40⟩ }
        []).data.bounds?.isSome = true ∧
    ∀ n ∈ preorder c8Tree, containsPoint n.data 15 25 = true →
      area (UiNode.node
        { plainData with cls := "B".data, bounds? := some ⟨10, 20, 30, 40⟩ } []) ≤
        area n :=
  (c8_point_query c8Tree 15 25).2 _ (by rfl)

/-! ## Theorems: the clickable flag (C10) -/

/-- C10: for every line the geometry parser accepts, the node's
clickable flag is true exactly when the line contains the state code
".C" or the parsed class name contains "Button" or "TextView"; in
particular a Button-like or TextView-like class is reported clickable
without any clickable state code. -/
theorem c10_clickable_rule (line : Str) (vi : ViewInfo)
    (h : parse_line line = some vi) :
    vi.clickable = (subIn ".C".data line || subIn "Button".data vi.cls ||
      subIn "TextView".data vi.cls) ∧
    ((subIn "TextView".data vi.cls = true ∨ subIn "Button".data vi.cls = true) →
      vi.clickable = true) := by
  unfold parse_line at h
  by_cases hc : (line.takeWhile isClassChar).isEmpty
  · rw [if_pos hc] at h
    simp at h
  · rw [if_neg hc] at h
    rcases hb : searchBounds line with _ | b
    · rw [hb] at h
      simp at h
    · rw [hb] at h
      dsimp only at h
      simp only [Option.some.injEq] at h
      subst h
      refine ⟨rfl, ?_⟩
      intro hd
      dsimp only
      rcases hd with hd | hd <;> simp [hd]

/-- Witness for c10_clickable_rule: the TextView line with no ".C"
code parses with clickable reported true. -/
theorem c10_clickable_rule_witness :
    (c10vi.clickable = (subIn ".C".data c10line ||
      subIn "Button".data c10vi.cls || subIn "TextView".data c10vi.cls) ∧
    ((subIn "TextView".data c10vi.cls = true ∨
      subIn "Button".data c10vi.cls = true) → c10vi.clickable = true)) :=
  c10_clickable_rule c10line c10vi (by decide)

/-! ## Theorems: pre-build filtering and subtree skipping (C6) -/

theorem inert_step (s : PState) (line : Str) (d : Nat)
    (hskip : s.skip = some d) (hin : inert d line) :
    processLine s line = s := by
  unfold processLine
  by_cases hbh : ((stripStr line).isEmpty || subIn "View Hierarchy:".data line) = true
  · rw [if_pos hbh]
  · rw [if_neg hbh]
    rcases hin with hb | hh | hlt
    · exfalso
      exact hbh (by simp [hb])
    · exfalso
      exact hbh (by simp [hh])
    · rw [hskip]
      dsimp only
      rw [if_pos hlt]

theorem inert_fold (ls : List Str) (s : PState) (d : Nat)
    (hskip : s.skip = some d) (hin : ∀ l ∈ ls, inert d l) :
    ls.foldl processLine s = s := by
  induction ls with
  | nil => rfl
  | cons l ls ih =>
    simp only [List.foldl_cons]
    rw [inert_step s l d hskip (hin l (List.mem_cons_self l ls))]
    exact ih (fun l hl => hin l (List.mem_cons_of_mem _ hl))

/-- C6 (amended): the geometry parser drops, before building the node,
every line whose parsed resource-id contains a blocklisted substring,
whose class exactly equals a blocklisted class, or whose relative
bounds are 0 in both width and height — recording the line's indent as
the active skip; while that skip is active every more-indented (or
blank) following line is dropped without any state change, so the
filtered node's entire subtree is dropped with it. -/
theorem c6_filter_drops_subtree :
    (∀ vi : ViewInfo, should_filter vi = true ↔
      ((∃ rid, vi.resourceId = some rid ∧
          ∃ f ∈ FILTER_IDS, subIn f rid = true) ∨
       (∃ f ∈ FILTER_CLASSES, f = vi.cls) ∨
       (vi.bounds.right - vi.bounds.left = 0 ∧
        vi.bounds.bottom - vi.bounds.top = 0))) ∧
    (∀ (s : PState) (line : Str) (vi : ViewInfo),
      ((stripStr line).isEmpty || subIn "View Hierarchy:".data line) = false →
      (s.skip = none ∨ ∃ d, s.skip = some d ∧ countIndent line ≤ d) →
      parse_line (stripStr line) = some vi →
      should_filter vi = true →
      processLine s line = { s with skip := some (countIndent line) }) ∧
    ∀ (s : PState) (line : Str) (vi : ViewInfo) (ls : List Str),
      ((stripStr line).isEmpty || subIn "View Hierarchy:".data line) = false →
      (s.skip = none ∨ ∃ d, s.skip = some d ∧ countIndent line ≤ d) →
      parse_line (stripStr line) = some vi →
      should_filter vi = true →
      (∀ l ∈ ls, inert (countIndent line) l) →
      (line :: ls).foldl processLine s =
        { s with skip := some (countIndent line) } := by
  have hb : ∀ (s : PState) (line : Str) (vi : ViewInfo),
      ((stripStr line).isEmpty || subIn "View Hierarchy:".data line) = false →
      (s.skip = none ∨ ∃ d, s.skip = some d ∧ countIndent line ≤ d) →
      parse_line (stripStr line) = some vi →
      should_filter vi = true →
      processLine s line = { s with skip := some (countIndent line) } := by
    intro s line vi hbh hsk hp hf
    unfold processLine
    rw [hbh]
    dsimp only
    rcases hsk with hsk | ⟨d, hsk, hle⟩ <;> rw [hsk]
    · dsimp only
      unfold processBody
      rw [hp]
      dsimp only
      rw [if_pos hf]
      simp
    · dsimp only
      have hnd : ¬d < countIndent line := by omega
      rw [if_neg hnd]
      unfold processBody
      rw [hp]
      dsimp only
      rw [if_pos hf]
      simp
  refine ⟨?_, hb, ?_⟩
  · intro vi
    rcases hrid : vi.resourceId with _ | rid
    all_goals simp [should_filter, hrid, List.any_eq_true, beq_iff_eq,
      Bool.and_eq_true, and_comm]
    all_goals aesop
  · intro s line vi ls hbh hsk hp hf hin
    simp only [List.foldl_cons]
    rw [hb s line vi hbh hsk hp hf]
    exact inert_fold ls _ (countIndent line) rfl hin

/-- C6 counterexample: the line "android.view.Foo 0,0-10,0" has
relative bounds of zero area (10 wide, 0 high), yet it passes the
filter and the parser emits its node — the filter drops only bounds
that are 0 in both dimensions, not every zero-area bounds. -/
theorem c6_counterexample :
    parse_line (stripStr c6line) = some c6vi ∧
    (c6vi.bounds.right - c6vi.bounds.left) *
      (c6vi.bounds.bottom - c6vi.bounds.top) = 0 ∧
    should_filter c6vi = false ∧
    parse_view_hierarchy c6line =
      .node (create_ui_node c6vi c6vi.bounds) [] := by
  refine ⟨by decide, by decide, by decide, ?_⟩
  rfl

/-- Witness for c6_filter_drops_subtree: from the initial state, the
blocklisted line followed by a more-indented line produces no node at
all, only the recorded skip. -/
theorem c6_filter_drops_subtree_witness :
    ([c6wLine, c6wChild]).foldl processLine initPState =
      { initPState with skip := some (countIndent c6wLine) } :=
  c6_filter_drops_subtree.2.2 initPState c6wLine
    { cls := "android.B".data, bounds := ⟨0, 0, 5, 5⟩
      resourceId := some "statusBarBackground".data
      visible := false, focusable := false, enabled := false
      clickable := false }
    [c6wChild] (by decide) (Or.inl rfl) (by decide) (by decide)
    (by
      intro l hl
      simp only [List.mem_singleton] at hl
      subst hl
      right
      right
      decide)

/-! ## Theorems: absolute bounds and top-left containment (C7) -/

theorem matchBoundsAt_nonneg (l : Str) (b : Bnds)
    (h : matchBoundsAt l = some b) :
    0 ≤ b.left ∧ 0 ≤ b.top := by
  unfold matchBoundsAt at h
  rcases h1 : readDigits l with _ | ⟨a1, r1⟩ <;> simp [h1] at h
  rcases h2 : expectChar ',' r1 with _ | r2 <;> simp [h2] at h
  rcases h3 : readDigits r2 with _ | ⟨a2, r3⟩ <;> simp [h3] at h
  rcases h4 : expectChar '-' r3 with _ | r4 <;> simp [h4] at h
  rcases h5 : readDigits r4 with _ | ⟨a3, r5⟩ <;> simp [h5] at h
  rcases h6 : expectChar ',' r5 with _ | r6 <;> simp [h6] at h
  rcases h7 : readDigits r6 with _ | ⟨a4, r7⟩ <;> simp [h7] at h
  rw [← h]
  constructor <;> positivity

theorem searchBounds_nonneg :
    ∀ (l : Str) (b : Bnds), searchBounds l = some b → 0 ≤ b.left ∧ 0 ≤ b.top
  | [], b => by simp [searchBounds]
  | c :: rest, b => by
    intro h
    simp only [searchBounds] at h
    rcases hm : matchBoundsAt (c :: rest) with _ | b' <;> rw [hm] at h
    · exact searchBounds_nonneg rest b h
    · simp only [Option.some.injEq] at h
      subst h
      exact matchBoundsAt_nonneg _ _ hm

theorem parse_line_nonneg (line : Str) (vi : ViewInfo)
    (h : parse_line line = some vi) :
    0 ≤ vi.bounds.left ∧ 0 ≤ vi.bounds.top := by
  unfold parse_line at h
  by_cases hc : (line.takeWhile isClassChar).isEmpty
  · rw [if_pos hc] at h
    simp at h
  · rw [if_neg hc] at h
    rcases hb : searchBounds line with _ | b
    · rw [hb] at h
      simp at h
    · rw [hb] at h
      dsimp only at h
      simp only [Option.some.injEq] at h
      subst h
      exact searchBounds_nonneg line b hb

theorem TLClist_iff : ∀ ls : List UiNode, TLClist ls ↔ ∀ t ∈ ls, TLCp t
  | [] => by simp [TLClist]
  | t :: ts => by
    simp only [TLClist, TLClist_iff ts]
    constructor
    · rintro ⟨h1, h2⟩ u hu
      rcases List.mem_cons.1 hu with hu | hu
      · exact hu ▸ h1
      · exact h2 u hu
    · intro h
      exact ⟨h t (List.mem_cons_self t ts),
        fun u hu => h u (List.mem_cons_of_mem _ hu)⟩

theorem closeFrame_tlc (f : Frame) (hf : frameOk f) :
    TLCp (closeFrame f) ∧ bOf (closeFrame f).data = f.absB := by
  obtain ⟨h1, h2, h3, h4⟩ := hf
  have hb : bOf (closeFrame f).data = f.absB := by
    simp [closeFrame, UiNode.data, bOf, h3]
  refine ⟨?_, hb⟩
  show TLCp (.node f.data f.childrenRev.reverse)
  rw [TLCp]
  constructor
  · intro c hc
    have := h4 c (List.mem_reverse.1 hc)
    unfold originLE
    rw [show bOf f.data = f.absB from by simp [bOf, h3]]
    exact ⟨this.2.1, this.2.2⟩
  · rw [TLClist_iff]
    intro t ht
    exact (h4 t (List.mem_reverse.1 ht)).1

theorem stackOk_head (f : Frame) (rest : List Frame)
    (h : stackOk (f :: rest)) : frameOk f := by
  cases rest with
  | nil => exact h
  | cons g rest => exact h.1

theorem stackOk_tail (f : Frame) (rest : List Frame)
    (h : stackOk (f :: rest)) : stackOk rest := by
  cases rest with
  | nil => trivial
  | cons g rest => exact h.2.2.2

theorem stackOk_adj (f g : Frame) (rest : List Frame)
    (h : stackOk (f :: g :: rest)) :
    g.absB.left ≤ f.absB.left ∧ g.absB.top ≤ f.absB.top :=
  ⟨h.2.1, h.2.2.1⟩

theorem stackOk_cons (f : Frame) (rest : List Frame) (hf : frameOk f)
    (hr : stackOk rest)
    (hadj : ∀ g grest, rest = g :: grest →
      g.absB.left ≤ f.absB.left ∧ g.absB.top ≤ f.absB.top) :
    stackOk (f :: rest) := by
  cases rest with
  | nil => exact hf
  | cons g grest =>
    obtain ⟨ha1, ha2⟩ := hadj g grest rfl
    exact ⟨hf, ha1, ha2, hr⟩

theorem frameOk_attach (f : Frame) (t : UiNode) (hf : frameOk f)
    (ht : TLCp t) (hl : f.absB.left ≤ (bOf t.data).left)
    (hr : f.absB.top ≤ (bOf t.data).top) :
    frameOk { f with childrenRev := t :: f.childrenRev } := by
  obtain ⟨h1, h2, h3, h4⟩ := hf
  refine ⟨h1, h2, h3, ?_⟩
  intro u hu
  rcases List.mem_cons.1 hu with hu | hu
  · subst hu
    exact ⟨ht, hl, hr⟩
  · exact h4 u hu

theorem popWhileC_ok :
    ∀ (stk : List Frame) (rootRev : List UiNode) (ind : Nat)
      (carry : Option UiNode),
      stackOk stk → rootOk rootRev →
      (∀ t, carry = some t → TLCp t ∧ aboveHead t stk) →
      stackOk (popWhileC stk rootRev ind carry).1 ∧
      rootOk (popWhileC stk rootRev ind carry).2
  | [], rootRev, ind, carry => by
    intro hs hr hc
    simp only [popWhileC]
    refine ⟨trivial, ?_⟩
    rcases carry with _ | t
    · exact hr
    · intro u hu
      rcases List.mem_cons.1 hu with hu | hu
      · obtain ⟨ht, ha⟩ := hc t rfl
        exact hu ▸ ⟨ht, ha.1, ha.2⟩
      · exact hr u hu
  | f :: rest, rootRev, ind, carry => by
    intro hs hr hc
    simp only [popWhileC]
    have hfok : frameOk f := stackOk_head f rest hs
    have hf2 : frameOk (match carry with
        | some t => { f with childrenRev := t :: f.childrenRev }
        | none => f) := by
      rcases carry with _ | t
      · exact hfok
      · obtain ⟨ht, ha⟩ := hc t rfl
        exact frameOk_attach f t hfok ht ha.1 ha.2
    rcases carry with _ | t
    all_goals dsimp only
    all_goals by_cases hle : ind ≤ f.indent
    · rw [if_pos hle]
      apply popWhileC_ok rest rootRev ind _ (stackOk_tail f rest hs) hr
      intro u hu
      simp only [Option.some.injEq] at hu
      subst hu
      obtain ⟨htlc, hb⟩ := closeFrame_tlc f hf2
      refine ⟨htlc, ?_⟩
      cases rest with
      | nil =>
        show 0 ≤ (bOf (closeFrame f).data).left ∧
          0 ≤ (bOf (closeFrame f).data).top
        rw [hb]
        exact ⟨hfok.1, hfok.2.1⟩
      | cons g grest =>
        show g.absB.left ≤ (bOf (closeFrame f).data).left ∧
          g.absB.top ≤ (bOf (closeFrame f).data).top
        rw [hb]
        exact stackOk_adj f g grest hs
    · rw [if_neg hle]
      refine ⟨?_, hr⟩
      apply stackOk_cons f rest hf2 (stackOk_tail f rest hs)
      intro g grest hrg
      subst hrg
      exact stackOk_adj f g grest hs
    · rw [if_pos hle]
      apply popWhileC_ok rest rootRev ind _ (stackOk_tail f rest hs) hr
      intro u hu
      simp only [Option.some.injEq] at hu
      subst hu
      obtain ⟨htlc, hb⟩ := closeFrame_tlc _ hf2
      refine ⟨htlc, ?_⟩
      cases rest with
      | nil =>
        show 0 ≤ (bOf (closeFrame _).data).left ∧
          0 ≤ (bOf (closeFrame _).data).top
        rw [hb]
        exact ⟨hfok.1, hfok.2.1⟩
      | cons g grest =>
        show g.absB.left ≤ (bOf (closeFrame _).data).left ∧
          g.absB.top ≤ (bOf (closeFrame _).data).top
        rw [hb]
        exact stackOk_adj f g grest hs
    · rw [if_neg hle]
      refine ⟨?_, hr⟩
      apply stackOk_cons _ rest hf2 (stackOk_tail f rest hs)
      intro g grest hrg
      subst hrg
      exact stackOk_adj f g grest hs

theorem processBody_inv (s : PState) (line : Str) (ind : Nat) (h : invP s) :
    invP (processBody s line ind) := by
  unfold processBody
  rcases hp : parse_line (stripStr line) with _ | vi
  · exact h
  · dsimp only
    by_cases hf : should_filter vi = true
    · rw [if_pos hf]
      exact h
    · rw [if_neg hf]
      simp only [popWhile]
      have hpw := popWhileC_ok s.stack s.rootChildrenRev ind none h.1 h.2
        (by intro t ht; simp at ht)
      have hvb := parse_line_nonneg (stripStr line) vi hp
      rcases hstk : (popWhileC s.stack s.rootChildrenRev ind none).1
        with _ | ⟨f, rest⟩
      · dsimp only
        split
        · exact ⟨trivial, hpw.2⟩
        · refine ⟨?_, hpw.2⟩
          show stackOk [⟨ind, vi.bounds, create_ui_node vi vi.bounds, []⟩]
          refine ⟨hvb.1, hvb.2, rfl, ?_⟩
          intro t ht
          simp at ht
      · rw [hstk] at hpw
        dsimp only
        have hfok : frameOk f := stackOk_head f rest hpw.1
        split
        · exact ⟨hpw.1, hpw.2⟩
        · refine ⟨?_, hpw.2⟩
          apply stackOk_cons
          · refine ⟨?_, ?_, rfl, ?_⟩
            · show (0 : Int) ≤ (calculate_absolute_bounds f.absB vi.bounds).left
              unfold calculate_absolute_bounds
              dsimp only
              have h1 := hfok.1
              have h2 := hvb.1
              omega
            · show (0 : Int) ≤ (calculate_absolute_bounds f.absB vi.bounds).top
              unfold calculate_absolute_bounds
              dsimp only
              have h1 := hfok.2.1
              have h2 := hvb.2
              omega
            · intro t ht
              simp at ht
          · exact hpw.1
          · intro g grest hg
            injection hg with hg1 hg2
            subst hg1
            constructor
            · show f.absB.left ≤ (calculate_absolute_bounds f.absB vi.bounds).left
              unfold calculate_absolute_bounds
              dsimp only
              have h2 := hvb.1
              omega
            · show f.absB.top ≤ (calculate_absolute_bounds f.absB vi.bounds).top
              unfold calculate_absolute_bounds
              dsimp only
              have h2 := hvb.2
              omega

theorem processLine_inv (s : PState) (line : Str) (h : invP s) :
    invP (processLine s line) := by
  unfold processLine
  by_cases hbh :
      ((stripStr line).isEmpty || subIn "View Hierarchy:".data line) = true
  · rw [if_pos hbh]
    exact h
  · rw [if_neg hbh]
    dsimp only
    rcases hsk : s.skip with _ | d
    · exact processBody_inv s line _ h
    · dsimp only
      by_cases hd : d < countIndent line
      · rw [if_pos hd]
        exact h
      · rw [if_neg hd]
        exact processBody_inv { s with skip := none } line _ h

theorem runParse_inv (text : Str) : invP (runParse text) := by
  unfold runParse
  have hgen : ∀ (ls : List Str) (s : PState), invP s →
      invP (ls.foldl processLine s) := by
    intro ls
    induction ls with
    | nil => exact fun s h => h
    | cons l ls ih => exact fun s h => ih _ (processLine_inv s l h)
  refine hgen _ _ ⟨trivial, ?_⟩
  intro t ht
  simp [initPState] at ht

/-- C7 (amended): in every tree the geometry parser produces, each
node's absolute top-left corner is at or inside its parent's — the
child's x1 and y1 are at least the parent's.  Full containment of the
bottom-right corner does not hold in general (see the
counterexample). -/
theorem c7_topleft_containment (text : Str) :
    TLCp (parse_view_hierarchy text) := by
  have hinv := runParse_inv text
  unfold parse_view_hierarchy to_ui_format popWhile
  have hpw := popWhileC_ok (runParse text).stack (runParse text).rootChildrenRev
    0 none hinv.1 hinv.2 (by intro t ht; simp at ht)
  have hroot := hpw.2
  have hmem : ∀ t,
      t ∈ (popWhileC (runParse text).stack (runParse text).rootChildrenRev
        0 none).2.reverse →
      TLCp t ∧ 0 ≤ (bOf t.data).left ∧ 0 ≤ (bOf t.data).top := by
    intro t ht
    exact hroot t (List.mem_reverse.1 ht)
  rcases hk : (popWhileC (runParse text).stack (runParse text).rootChildrenRev
      0 none).2.reverse with _ | ⟨k, _ | ⟨k2, ks⟩⟩
  · rw [TLCp]
    constructor
    · intro c hc
      simp at hc
    · rw [TLClist]
      trivial
  · exact (hmem k (by rw [hk]; simp)).1
  · rw [TLCp]
    constructor
    · intro c hc
      have := (hmem c (by rw [hk]; exact hc)).2
      unfold originLE
      rw [show bOf virtualRootData = ⟨0, 0, 0, 0⟩ from rfl]
      exact this
    · rw [TLClist_iff]
      intro t ht
      exact (hmem t (by rw [hk]; exact ht)).1

/-- C7 counterexample: parsing a parent with bounds 0,0-10,10 whose
child has relative (and hence absolute) bounds 0,0-50,50 yields a tree
in which the parent's absolute bounds do not contain the child's. -/
theorem c7_counterexample :
    (parse_view_hierarchy c7input).data.bounds? = some ⟨0, 0, 10, 10⟩ ∧
    ((parse_view_hierarchy c7input).children.map fun c => c.data.bounds?) =
      [some ⟨0, 0, 50, 50⟩] ∧
    ¬boundsContain ⟨0, 0, 10, 10⟩ ⟨0, 0, 50, 50⟩ :=
  ⟨by rfl, by rfl, by decide⟩

/-! ## Theorems: degraded dispatch (C9) -/

/-- C9 (amended): with both sources missing, the dispatch yields no
result; with only the attribute source, it passes its tree through;
with only the geometry text, it passes the parsed geometry tree through
provided at least one line parsed to a view; a merge attempted with a
missing tree performs no matching and its statistics report 0 matched
and a 0 rate; and the result is empty exactly when both sources are
missing or the only available source is geometry text that parses to no
views. -/
theorem c9_degraded_dispatch :
    parse_hybrid_mode none none = none ∧
    (∀ u, parse_hybrid_mode none (some u) = some u) ∧
    (∀ h, 0 < (runParse h).viewsCount →
      parse_hybrid_mode (some h) none = some (to_ui_format (runParse h))) ∧
    (∀ vh ui : Option UiNode, vh = none ∨ ui = none →
      (merge_trees_opt vh ui).1 = none ∧
      (merge_trees_opt vh ui).2 = initMergeState ∧
      (get_statistics initMergeState).matched = 0 ∧
      (get_statistics initMergeState).matchRate = 0) ∧
    ∀ ht ut, parse_hybrid_mode ht ut = none ↔
      (ht = none ∧ ut = none) ∨
      ∃ h, ht = some h ∧ ut = none ∧ (runParse h).viewsCount = 0 := by
  refine ⟨rfl, fun u => rfl, ?_, ?_, ?_⟩
  · intro h hv
    unfold parse_hybrid_mode
    dsimp only
    rw [if_pos hv]
  · intro vh ui hmiss
    rcases vh with _ | v <;> rcases ui with _ | u
    all_goals simp [merge_trees_opt, initMergeState, get_statistics]
    all_goals simp at hmiss
  · intro ht ut
    rcases ht with _ | h <;> rcases ut with _ | u
    · simp [parse_hybrid_mode]
    · simp [parse_hybrid_mode]
    · unfold parse_hybrid_mode
      dsimp only
      by_cases hv : 0 < (runParse h).viewsCount
      · rw [if_pos hv]
        simp
        omega
      · rw [if_neg hv]
        simp
        omega
    · simp [parse_hybrid_mode]

/-- C9 counterexample: the geometry text "xyz" is an available raw
source, yet with the attribute source missing the dispatch yields an
empty result, because no line of the text parses to a view — emptiness
is not restricted to both sources being unavailable. -/
theorem c9_counterexample :
    parse_hybrid_mode (some c9garbage) none = none ∧
    (some c9garbage ≠ (none : Option Str)) ∧
    (runParse c9garbage).viewsCount = 0 := by
  refine ⟨rfl, by simp, rfl⟩

/-- Witness for c9_degraded_dispatch: a parsable one-line geometry text
passes through, and a merge with the geometry tree missing keeps the
fresh statistics. -/
theorem c9_degraded_dispatch_witness :
    parse_hybrid_mode (some c9text) none =
      some (to_ui_format (runParse c9text)) ∧
    ((merge_trees_opt none (some c9UiTree)).1 = none ∧
      (merge_trees_opt none (some c9UiTree)).2 = initMergeState ∧
      (get_statistics initMergeState).matched = 0 ∧
      (get_statistics initMergeState).matchRate = 0) :=
  ⟨c9_degraded_dispatch.2.2.1 c9text (by decide),
    c9_degraded_dispatch.2.2.2.1 none (some c9UiTree) (Or.inl rfl)⟩
